import Mathlib

/-! Verified properties of bing_wallpaper.go, over a shallow embedding.

The program fetches the metadata of Bing's image of the day, derives a file
name from the `rf` query parameter of the image URL and stores the image in a
target directory.

Conventions of the embedding.

* A Go `string` is a sequence of bytes.  It is represented by `List Char`,
  every byte `b` being the character with code `b`.
* The functions of the program return their Go result pair `(value, error)`,
  the error being an `Option`; the library functions return an `Except`.
* The standard-library functions the program calls (`net/url`, `path/filepath`)
  are transcribed from the Go standard library (go1.21, Unix build).
* The operating system, the network and the JSON decoder are an explicit
  `World` of oracles; `main` threads an explicit run state through them.
-/

set_option autoImplicit false

namespace BingWallpaper

/-- A Go string: a list of bytes, each byte written as the character with that code. -/
abbrev GoString := List Char

/-! ## Package `strings` -/

namespace strings

/-- Go `strings.HasPrefix`. -/
def HasPrefix (s pre : GoString) : Bool := pre.isPrefixOf s

/-- Go `strings.HasSuffix`. -/
def HasSuffix (s suf : GoString) : Bool := suf.reverse.isPrefixOf s.reverse

/-- Go `strings.Contains` for a one-byte substring. -/
def Contains (s : GoString) (c : Char) : Bool := s.any (fun d => d == c)

/-- Go `strings.Count` for a one-byte substring. -/
def Count (s : GoString) (c : Char) : Nat := (s.filter (fun d => d == c)).length

/-- Go `strings.Cut` for a one-byte separator: the text before the first
separator, the text after it, and whether the separator was found. -/
def Cut : GoString → Char → GoString × GoString × Bool
  | [], _ => ([], [], false)
  | c :: s, sep =>
    if c = sep then ([], s, true)
    else
      let r := Cut s sep
      if r.2.2 then (c :: r.1, r.2.1, true) else (c :: s, [], false)

/-- Go `strings.Index`: the position of the first occurrence of `sub`, or `none` (Go: -1). -/
def Index : GoString → GoString → Option Nat
  | [], sub => if sub = [] then some 0 else none
  | c :: s, sub =>
    if sub.isPrefixOf (c :: s) then some 0
    else (Index s sub).map (fun i => i + 1)

/-- Go `strings.LastIndex` for a one-byte substring, or `none` (Go: -1). -/
def LastIndex : GoString → Char → Option Nat
  | [], _ => none
  | c :: s, sep =>
    match LastIndex s sep with
    | some i => some (i + 1)
    | none => if c = sep then some 0 else none

/-- Lower-casing of one byte, as `strings.ToLower` does on ASCII input. -/
def toLowerByte (c : Char) : Char :=
  if 'A' ≤ c ∧ c ≤ 'Z' then Char.ofNat (c.toNat + 32) else c

/-- Go `strings.ToLower` (ASCII). -/
def ToLower (s : GoString) : GoString := s.map toLowerByte

end strings

/-! ## Package `net/url` -/

namespace url

/-- The escaping modes of `net/url`. -/
inductive encoding
  | encodePath
  | encodePathSegment
  | encodeHost
  | encodeZone
  | encodeUserPassword
  | encodeQueryComponent
  | encodeFragment
  deriving DecidableEq, Repr

open encoding

/-- The errors `url.Parse` and `url.ParseQuery` produce (the `Err` field of `*url.Error`). -/
inductive ParseErr
  /-- `net/url: invalid control character in URL` -/
  | invalidControlCharacter
  /-- `missing protocol scheme` -/
  | missingProtocolScheme
  /-- `first path segment in URL cannot contain colon` -/
  | firstPathSegmentColon
  /-- `EscapeError(s)`: invalid URL escape -/
  | EscapeError (s : GoString)
  /-- `InvalidHostError(s)`: invalid character in host name -/
  | InvalidHostError (s : GoString)
  /-- `missing ']' in host` -/
  | missingBracket
  /-- `invalid port %q after host` -/
  | invalidPort (colonPort : GoString)
  /-- `net/url: invalid userinfo` -/
  | invalidUserinfo
  /-- `invalid semicolon separator in query` -/
  | invalidSemicolon
  /-- `empty url` -/
  | emptyURL
  /-- `invalid URI for request` -/
  | invalidURIForRequest
  deriving DecidableEq, Repr

/-- Go `url.Userinfo`. -/
structure Userinfo where
  username : GoString
  password : GoString
  passwordSet : Bool
  deriving DecidableEq, Repr

/-- Go `url.URL`, without the `RawPath` and `RawFragment` encoding hints. -/
structure URL where
  Scheme : GoString := []
  Opaque : GoString := []
  User : Option Userinfo := none
  Host : GoString := []
  Path : GoString := []
  ForceQuery : Bool := false
  OmitHost : Bool := false
  RawQuery : GoString := []
  Fragment : GoString := []
  deriving DecidableEq, Repr

/-- Go `ishex`. -/
def ishex (c : Char) : Bool :=
  ('0' ≤ c && c ≤ '9') || ('a' ≤ c && c ≤ 'f') || ('A' ≤ c && c ≤ 'F')

/-- Go `unhex`. -/
def unhex (c : Char) : Nat :=
  if '0' ≤ c ∧ c ≤ '9' then c.toNat - '0'.toNat
  else if 'a' ≤ c ∧ c ≤ 'f' then c.toNat - 'a'.toNat + 10
  else if 'A' ≤ c ∧ c ≤ 'F' then c.toNat - 'A'.toNat + 10
  else 0

/-- The byte `unhex(a)<<4 | unhex(b)`. -/
def hexByte (a b : Char) : Char := Char.ofNat ((unhex a <<< 4) ||| unhex b)

/-- Go `shouldEscape`. -/
def shouldEscape (c : Char) (mode : encoding) : Bool :=
  -- §2.3 Unreserved characters (alphanum)
  if ('a' ≤ c && c ≤ 'z') || ('A' ≤ c && c ≤ 'Z') || ('0' ≤ c && c ≤ '9') then false
  -- §3.2.2 Host allows sub-delims, `:`, `[`, `]`, `<`, `>` and `"`
  else if (mode = encodeHost || mode = encodeZone) &&
      "!$&'()*+,;=:[]<>\"".toList.contains c then false
  -- §2.3 Unreserved characters (mark)
  else if "-_.~".toList.contains c then false
  -- §2.2 Reserved characters (reserved)
  else if "$&+,/:;=?@".toList.contains c then
    match mode with
    | encodePath => c = '?'
    | encodePathSegment => c = '/' || c = ';' || c = ',' || c = '?'
    | encodeUserPassword => c = '@' || c = '/' || c = '?' || c = ':'
    | encodeQueryComponent => true
    | encodeFragment => false
    -- no case for the host modes: control reaches the final `return true`
    | encodeHost => true
    | encodeZone => true
  else if mode = encodeFragment && "!()*".toList.contains c then false
  -- Everything else must be escaped.
  else true

/-- First loop of Go `unescape`: checks that every `%` starts a well-formed
escape admitted by `mode`, counting the escapes (`n`) and recording `hasPlus`. -/
def unescapeCheck (mode : encoding) : GoString → Nat → Bool → Except ParseErr (Nat × Bool)
  | [], n, hasPlus => .ok (n, hasPlus)
  | c :: rest, n, hasPlus =>
    if c = '%' then
      match rest with
      | a :: b :: rest2 =>
        if !ishex a || !ishex b then .error (.EscapeError [c, a, b])
        else if mode = encodeHost && decide (unhex a < 8) && [c, a, b] ≠ "%25".toList then
          .error (.EscapeError [c, a, b])
        else if mode = encodeZone && [c, a, b] ≠ "%25".toList && hexByte a b ≠ ' ' &&
            shouldEscape (hexByte a b) encodeHost then
          .error (.EscapeError [c, a, b])
        else unescapeCheck mode rest2 (n + 1) hasPlus
      | short => .error (.EscapeError (c :: short))
    else if c = '+' then unescapeCheck mode rest n (mode = encodeQueryComponent)
    else if (mode = encodeHost || mode = encodeZone) && decide (c.toNat < 0x80) &&
        shouldEscape c encodeHost then
      .error (.InvalidHostError [c])
    else unescapeCheck mode rest n hasPlus

/-- Second loop of Go `unescape`: replaces every escape by its byte and, in
query-component mode, every `+` by a space.  A truncated escape cannot reach
this loop (the first loop rejects it); the model then stops. -/
def unescapeBuild (mode : encoding) : GoString → GoString
  | [] => []
  | c :: rest =>
    if c = '%' then
      match rest with
      | a :: b :: rest2 => hexByte a b :: unescapeBuild mode rest2
      | _ => []
    else if c = '+' then
      (if mode = encodeQueryComponent then ' ' else '+') :: unescapeBuild mode rest
    else c :: unescapeBuild mode rest

/-- Go `unescape`. -/
def unescape (s : GoString) (mode : encoding) : Except ParseErr GoString :=
  match unescapeCheck mode s 0 false with
  | .error e => .error e
  | .ok (n, hasPlus) =>
    if n = 0 && !hasPlus then .ok s else .ok (unescapeBuild mode s)

/-- Go `QueryUnescape`. -/
def QueryUnescape (s : GoString) : Except ParseErr GoString :=
  unescape s encodeQueryComponent

/-- Go `stringContainsCTLByte`. -/
def stringContainsCTLByte (s : GoString) : Bool :=
  s.any (fun b => decide (b < ' ') || b = Char.ofNat 0x7f)

/-- Loop of Go `getScheme`; `pre` holds the bytes `rawURL[:i]` in reverse. -/
def getSchemeLoop (rawURL : GoString) :
    GoString → GoString → Except ParseErr (GoString × GoString)
  | _, [] => .ok ([], rawURL)
  | pre, c :: rest =>
    if ('a' ≤ c && c ≤ 'z') || ('A' ≤ c && c ≤ 'Z') then getSchemeLoop rawURL (c :: pre) rest
    else if ('0' ≤ c && c ≤ '9') || c = '+' || c = '-' || c = '.' then
      if pre = [] then .ok ([], rawURL) else getSchemeLoop rawURL (c :: pre) rest
    else if c = ':' then
      if pre = [] then .error .missingProtocolScheme else .ok (pre.reverse, rest)
    else .ok ([], rawURL)

/-- Go `getScheme`: splits off a leading `scheme:`. -/
def getScheme (rawURL : GoString) : Except ParseErr (GoString × GoString) :=
  getSchemeLoop rawURL [] rawURL

/-- Go `validOptionalPort`. -/
def validOptionalPort (port : GoString) : Bool :=
  match port with
  | [] => true
  | c :: digits => c = ':' && digits.all (fun b => !(decide (b < '0') || decide (b > '9')))

/-- Go `validUserinfo`.  The Go loop ranges over runes; a rune outside ASCII
is rejected, which is what happens to every byte of its encoding here. -/
def validUserinfo (s : GoString) : Bool :=
  s.all (fun r =>
    ('A' ≤ r && r ≤ 'Z') || ('a' ≤ r && r ≤ 'z') || ('0' ≤ r && r ≤ '9') ||
      "-._:~!$&'()*+,;=%@".toList.contains r)

/-- Go `parseHost`. -/
def parseHost (host : GoString) : Except ParseErr GoString :=
  let plain : Except ParseErr GoString := unescape host encodeHost
  if strings.HasPrefix host "[".toList then
    match strings.LastIndex host ']' with
    | none => .error .missingBracket
    | some i =>
      let colonPort := host.drop (i + 1)
      if !validOptionalPort colonPort then .error (.invalidPort colonPort)
      else
        match strings.Index (host.take i) "%25".toList with
        | some zone =>
          match unescape (host.take zone) encodeHost with
          | .error e => .error e
          | .ok host1 =>
            match unescape ((host.take i).drop zone) encodeZone with
            | .error e => .error e
            | .ok host2 =>
              match unescape (host.drop i) encodeHost with
              | .error e => .error e
              | .ok host3 => .ok (host1 ++ host2 ++ host3)
        | none => plain
  else
    match strings.LastIndex host ':' with
    | some i =>
      let colonPort := host.drop i
      if !validOptionalPort colonPort then .error (.invalidPort colonPort) else plain
    | none => plain

/-- Go `parseAuthority`. -/
def parseAuthority (authority : GoString) : Except ParseErr (Option Userinfo × GoString) :=
  let i := strings.LastIndex authority '@'
  let hostResult :=
    match i with
    | none => parseHost authority
    | some i => parseHost (authority.drop (i + 1))
  match hostResult with
  | .error e => .error e
  | .ok host =>
    match i with
    | none => .ok (none, host)
    | some i =>
      let userinfo := authority.take i
      if !validUserinfo userinfo then .error .invalidUserinfo
      else if !strings.Contains userinfo ':' then
        match unescape userinfo encodeUserPassword with
        | .error e => .error e
        | .ok userinfo => .ok (some ⟨userinfo, [], false⟩, host)
      else
        let cut := strings.Cut userinfo ':'
        match unescape cut.1 encodeUserPassword with
        | .error e => .error e
        | .ok username =>
          match unescape cut.2.1 encodeUserPassword with
          | .error e => .error e
          | .ok password => .ok (some ⟨username, password, true⟩, host)

/-- Go `parse` (the unexported worker of `url.Parse`). -/
def parse (rawURL : GoString) (viaRequest : Bool) : Except ParseErr URL :=
  if stringContainsCTLByte rawURL then .error .invalidControlCharacter
  else if rawURL = [] && viaRequest then .error .emptyURL
  else if rawURL = "*".toList then .ok { Path := "*".toList }
  else
    match getScheme rawURL with
    | .error e => .error e
    | .ok (scheme0, rest0) =>
      let scheme := strings.ToLower scheme0
      let forceQuery := strings.HasSuffix rest0 "?".toList && strings.Count rest0 '?' == 1
      let rest1 := if forceQuery then rest0.take (rest0.length - 1) else (strings.Cut rest0 '?').1
      let rawQuery := if forceQuery then [] else (strings.Cut rest0 '?').2.1
      if !strings.HasPrefix rest1 "/".toList && scheme ≠ [] then
        -- We consider rootless paths per RFC 3986 as opaque.
        .ok { Scheme := scheme, Opaque := rest1, ForceQuery := forceQuery, RawQuery := rawQuery }
      else if !strings.HasPrefix rest1 "/".toList && viaRequest then
        .error .invalidURIForRequest
      else if !strings.HasPrefix rest1 "/".toList &&
          strings.Contains (strings.Cut rest1 '/').1 ':' then
        .error .firstPathSegmentColon
      else if (scheme ≠ [] || (!viaRequest && !strings.HasPrefix rest1 "///".toList)) &&
          strings.HasPrefix rest1 "//".toList then
        let authority0 := rest1.drop 2
        let authority :=
          match strings.Index authority0 "/".toList with
          | some i => authority0.take i
          | none => authority0
        let rest2 :=
          match strings.Index authority0 "/".toList with
          | some i => authority0.drop i
          | none => []
        match parseAuthority authority with
        | .error e => .error e
        | .ok (user, host) =>
          match unescape rest2 encodePath with
          | .error e => .error e
          | .ok path =>
            .ok { Scheme := scheme, User := user, Host := host, Path := path,
                  ForceQuery := forceQuery, RawQuery := rawQuery }
      else
        match unescape rest1 encodePath with
        | .error e => .error e
        | .ok path =>
          .ok { Scheme := scheme, Path := path, ForceQuery := forceQuery,
                OmitHost := decide (scheme ≠ []) && strings.HasPrefix rest1 "/".toList,
                RawQuery := rawQuery }

/-- Go `*url.Error`: the operation, the URL text and the underlying error. -/
structure Error where
  Op : GoString
  URL : GoString
  Err : ParseErr
  deriving DecidableEq, Repr

/-- Go `url.Parse`. -/
def Parse (rawURL : GoString) : Except Error URL :=
  let cut := strings.Cut rawURL '#'
  match parse cut.1 false with
  | .error e => .error ⟨"parse".toList, cut.1, e⟩
  | .ok u =>
    if cut.2.1 = [] then .ok u
    else
      match unescape cut.2.1 encodeFragment with
      | .error e => .error ⟨"parse".toList, rawURL, e⟩
      | .ok frag => .ok { u with Fragment := frag }

/-- Go `url.Values`, a `map[string][]string`, as an association list. -/
abbrev Values := List (GoString × List GoString)

/-- The map read `v[key]`; a missing key reads as the empty slice. -/
def Values.index (v : Values) (key : GoString) : List GoString :=
  match v with
  | [] => []
  | (k, vs) :: rest => if k = key then vs else Values.index rest key

/-- The map update `m[key] = append(m[key], value)`. -/
def Values.append (m : Values) (key value : GoString) : Values :=
  match m with
  | [] => [(key, [value])]
  | (k, vs) :: rest =>
    if k = key then (k, vs ++ [value]) :: rest else (k, vs) :: Values.append rest key value

/-- Go `Values.Get`: the first value of `key`, or `""`. -/
def Values.Get (v : Values) (key : GoString) : GoString :=
  match Values.index v key with
  | [] => []
  | first :: _ => first

/-- Loop of Go `parseQuery`.  Every round removes at least one byte from
`query`, so `query.length` rounds of fuel always suffice. -/
def parseQueryLoop : Nat → Values → GoString → Option ParseErr → Values × Option ParseErr
  | 0, m, _, err => (m, err)
  | fuel + 1, m, query, err =>
    if query = [] then (m, err)
    else
      let cut := strings.Cut query '&'
      let key := cut.1
      let query := cut.2.1
      if strings.Contains key ';' then parseQueryLoop fuel m query (some .invalidSemicolon)
      else if key = [] then parseQueryLoop fuel m query err
      else
        let kv := strings.Cut key '='
        match QueryUnescape kv.1 with
        | .error err1 => parseQueryLoop fuel m query (if err = none then some err1 else err)
        | .ok key =>
          match QueryUnescape kv.2.1 with
          | .error err1 => parseQueryLoop fuel m query (if err = none then some err1 else err)
          | .ok value => parseQueryLoop fuel (Values.append m key value) query err

/-- Go `url.ParseQuery`. -/
def ParseQuery (query : GoString) : Values × Option ParseErr :=
  parseQueryLoop query.length [] query none

/-- Go `(*URL).Query`: the parsed query, malformed pairs silently dropped. -/
def URL.Query (u : URL) : Values := (ParseQuery u.RawQuery).1

end url

/-! ## The program -/

/-- A Go `error` value as this program sees it. -/
inductive GoError
  /-- an error of the operating system, the network or the JSON decoder, with its text -/
  | external (text : GoString)
  /-- the result of `fmt.Errorf` with a constant text -/
  | errorf (text : GoString)
  /-- a `*url.Error` -/
  | urlError (e : url.Error)
  deriving DecidableEq, Repr

/-- Function `extractFileName` of bing_wallpaper.go: the returned name and error. -/
def extractFileName (fileURL : GoString) : GoString × Option GoError :=
  match url.Parse fileURL with
  | .error err => ([], some (.urlError err))
  | .ok parsedURL =>
    -- Extract the query parameters
    let params := parsedURL.Query
    let rf := params.Get "rf".toList
    if rf = [] then ([], some (.errorf "parameter 'rf' not found in the URL".toList))
    else (rf, none)

/-! ## Package `path/filepath` (Unix) -/

namespace filepath

/-- The inner loop of the `..` case of Go `filepath.Clean`: starting from
`w`, step back while `w > dotdot` and the byte at `w` is not a separator. -/
def backtrack (out : GoString) (dotdot : Nat) : Nat → Nat
  | 0 => 0
  | w + 1 =>
    if dotdot < w + 1 ∧ out.get? (w + 1) ≠ some '/' then backtrack out dotdot w else w + 1

/-- The main loop of Go `filepath.Clean`.  `p` is the unread part `path[r:]`,
`out` the bytes written so far (`out.w` is its length) and `dotdot` the index
where `..` must stop.  Every round reads at least one byte, so `p.length`
rounds of fuel suffice. -/
def cleanLoop (rooted : Bool) : Nat → GoString → GoString → Nat → GoString
  | 0, _, out, _ => out
  | fuel + 1, p, out, dotdot =>
    match p with
    | [] => out
    | c :: rest =>
      if c = '/' then
        -- empty path element
        cleanLoop rooted fuel rest out dotdot
      else if c = '.' ∧ (rest = [] ∨ rest.head? = some '/') then
        -- . element
        cleanLoop rooted fuel rest out dotdot
      else if c = '.' ∧ rest.head? = some '.' ∧
          (rest.tail = [] ∨ rest.tail.head? = some '/') then
        -- .. element: remove to last separator
        if dotdot < out.length then
          cleanLoop rooted fuel rest.tail (out.take (backtrack out dotdot (out.length - 1))) dotdot
        else if !rooted then
          let out2 := (if 0 < out.length then out ++ ['/'] else out) ++ ['.', '.']
          cleanLoop rooted fuel rest.tail out2 out2.length
        else cleanLoop rooted fuel rest.tail out dotdot
      else
        -- real path element: add slash if needed, copy element
        let out1 :=
          if (rooted && out.length != 1) || (!rooted && out.length != 0) then out ++ ['/']
          else out
        cleanLoop rooted fuel (p.dropWhile (fun b => b != '/'))
          (out1 ++ p.takeWhile (fun b => b != '/')) dotdot

/-- Go `filepath.Clean` on Unix (no volume names, separator `/`). -/
def Clean (path : GoString) : GoString :=
  match path with
  | [] => ['.']
  | c :: rest =>
    let rooted := c = '/'
    let out :=
      if rooted then cleanLoop true path.length rest ['/'] 1
      else cleanLoop false path.length path [] 0
    if out.length = 0 then ['.'] else out

/-- Go `strings.Join` with separator `/`. -/
def joinSlash : List GoString → GoString
  | [] => []
  | [e] => e
  | e :: rest => e ++ '/' :: joinSlash rest

/-- Go `filepath.Join` on Unix: the elements from the first non-empty one on
are joined with `/` and the result is cleaned. -/
def Join : List GoString → GoString
  | [] => []
  | e :: rest => if e ≠ [] then Clean (joinSlash (e :: rest)) else Join rest

/-- The path of the entry `name` of the directory with the cleaned path `dir`:
`/name` in the root, `name` in the current directory, `dir/name` elsewhere. -/
def entry (dir name : GoString) : GoString :=
  if dir = ['/'] then '/' :: name
  else if dir = ['.'] then name
  else dir ++ '/' :: name

/-- The output of `cleanLoop` after one more real path element `name`. -/
def addElem (rooted : Bool) (out name : GoString) : GoString :=
  (if (rooted && out.length != 1) || (!rooted && out.length != 0) then out ++ ['/'] else out)
    ++ name

/-- The invariant of the loop of `filepath.Clean`: a rooted output starts with
the separator and has `dotdot = 1`; an unrooted output does not start with a
separator and has `dotdot ≠ 1`; the first element of the output is never `.`. -/
def CleanInv (rooted : Bool) (out : GoString) (dotdot : Nat) : Prop :=
  (rooted = true → dotdot = 1 ∧ out.head? = some '/') ∧
  (rooted = false → dotdot ≠ 1 ∧ out.head? ≠ some '/') ∧
  out ≠ ['.'] ∧ (∀ t, out ≠ '.' :: '/' :: t)

end filepath

/-! ## The environment of a run -/

/-- The mask `fs.ModePerm` (octal 0777). -/
def ModePerm : Nat := 0o777

/-- The bit `fs.ModeDir` of an `os.FileMode` (a `uint32`). -/
def ModeDir : Nat := 1 <<< 31

/-- An `os.FileInfo` as far as the program reads it: the file mode bits. -/
structure FileInfo where
  mode : Nat
  deriving DecidableEq, Repr

/-- Go `FileInfo.Mode`. -/
def FileInfo.Mode (fi : FileInfo) : Nat := fi.mode

/-- Go `FileInfo.IsDir`, which is `Mode()&ModeDir != 0`. -/
def FileInfo.IsDir (fi : FileInfo) : Bool := fi.Mode &&& ModeDir != 0

/-- Go `FileMode.Perm`. -/
def Perm (m : Nat) : Nat := m &&& ModePerm

/-- An error of `os.Stat`: its text and what `os.IsNotExist` answers for it. -/
structure StatError where
  text : GoString
  IsNotExist : Bool
  deriving DecidableEq, Repr

/-- An HTTP response as delivered by `http.Get`. -/
structure Response where
  StatusCode : Nat
  Body : GoString
  deriving DecidableEq, Repr

/-- One element of `BingAPIResponse.Images`. -/
structure Image where
  URL : GoString
  deriving DecidableEq, Repr

/-- Type `BingAPIResponse` of bing_wallpaper.go. -/
structure BingAPIResponse where
  Images : List Image
  deriving DecidableEq, Repr

/-- Everything outside the program that a run depends on. -/
structure World where
  /-- `user.Current()`: the home directory, or an error -/
  userCurrent : Except GoString GoString
  /-- the value of the command line flag `-o`, when given -/
  flagO : Option GoString
  /-- `os.Stat` -/
  stat : GoString → Except StatError FileInfo
  /-- `http.Get`; the first argument is the number of requests made before -/
  httpGet : Nat → GoString → Except GoString Response
  /-- `json.NewDecoder(body).Decode` into a `BingAPIResponse` -/
  jsonDecode : GoString → Except GoString BingAPIResponse
  /-- whether `os.Create` fails on a path, and with which error text -/
  createError : GoString → Option GoString
  /-- whether `io.Copy` into the file fails, after how many bytes, and with which error text -/
  copyError : GoString → GoString → Option (Nat × GoString)
  /-- `strconv.Quote`, used by the texts of `net/url` errors -/
  quote : GoString → GoString
  /-- the content of every file before the run -/
  files : GoString → Option GoString

/-- The observable state of a run. -/
structure State where
  /-- the texts printed to standard output, one entry for each `fmt.Printf` -/
  stdout : List GoString
  /-- the URLs requested with `http.Get`, in order -/
  requests : List GoString
  /-- the paths handed to a successful `os.Create`, in order -/
  created : List GoString
  /-- the content of every file -/
  files : GoString → Option GoString

/-- The method `Error()` of a `net/url` parse error. -/
def url.ParseErr.Error (quote : GoString → GoString) : url.ParseErr → GoString
  | .invalidControlCharacter => "net/url: invalid control character in URL".toList
  | .missingProtocolScheme => "missing protocol scheme".toList
  | .firstPathSegmentColon => "first path segment in URL cannot contain colon".toList
  | .EscapeError s => "invalid URL escape ".toList ++ quote s
  | .InvalidHostError s => "invalid character ".toList ++ quote s ++ " in host name".toList
  | .missingBracket => "missing ']' in host".toList
  | .invalidPort colonPort => "invalid port ".toList ++ quote colonPort ++ " after host".toList
  | .invalidUserinfo => "net/url: invalid userinfo".toList
  | .invalidSemicolon => "invalid semicolon separator in query".toList
  | .emptyURL => "empty url".toList
  | .invalidURIForRequest => "invalid URI for request".toList

/-- The method `Error()` of a Go error, as `%s` prints it. -/
def GoError.Error (quote : GoString → GoString) : GoError → GoString
  | .external text => text
  | .errorf text => text
  | .urlError e => e.Op ++ " ".toList ++ quote e.URL ++ ": ".toList ++ e.Err.Error quote

/-- The file system after writing `content` to `path`. -/
def writeFile (files : GoString → Option GoString) (path content : GoString) :
    GoString → Option GoString :=
  fun q => if q = path then some content else files q

/-- Function `getBingWallpaperURL` of bing_wallpaper.go: the returned URL and
error, and the state after the call. -/
def getBingWallpaperURL (w : World) (s : State) : (GoString × Option GoError) × State :=
  let apiURL := "https://www.bing.com/HPImageArchive.aspx?format=js&idx=0&n=1&mkt=en-US".toList
  let s1 := { s with requests := s.requests ++ [apiURL] }
  match w.httpGet s.requests.length apiURL with
  | .error err => (([], some (.external err)), s1)
  | .ok resp =>
    match w.jsonDecode resp.Body with
    | .error err => (([], some (.external err)), s1)
    | .ok data =>
      match data.Images with
      | [] => (([], some (.errorf "no images found in the response".toList)), s1)
      | first :: _ => (("https://www.bing.com".toList ++ first.URL, none), s1)

/-- Function `downloadWallpaper` of bing_wallpaper.go: the returned path and
error, and the state after the call. -/
def downloadWallpaper (w : World) (bingURL dirPath : GoString) (s : State) :
    (GoString × Option GoError) × State :=
  let s1 := { s with requests := s.requests ++ [bingURL] }
  match w.httpGet s.requests.length bingURL with
  | .error err => (([], some (.external err)), s1)
  | .ok resp =>
    match extractFileName bingURL with
    | (_, some err) => (([], some err), s1)
    | (fileName, none) =>
      let filePath := filepath.Join [dirPath, fileName]
      match w.createError filePath with
      | some err => (([], some (.external err)), s1)
      | none =>
        let s2 := { s1 with created := s1.created ++ [filePath],
                            files := writeFile s1.files filePath [] }
        match w.copyError filePath resp.Body with
        | some (n, err) =>
          (([], some (.external err)),
            { s2 with files := writeFile s2.files filePath (resp.Body.take n) })
        | none => ((filePath, none), { s2 with files := writeFile s2.files filePath resp.Body })

/-- Go `fmt.Printf`: appends the formatted text to standard output. -/
def printf (s : State) (text : GoString) : State :=
  { s with stdout := s.stdout ++ [text] }

/-- Function `main` of bing_wallpaper.go: the final state and the exit status. -/
def main (w : World) : State × Nat :=
  let s0 : State := { stdout := [], requests := [], created := [], files := w.files }
  match w.userCurrent with
  | .error err => (printf s0 ("Error getting current user: ".toList ++ err ++ "\n".toList), 1)
  | .ok homeDir =>
    let defaultDirPath := filepath.Join [homeDir, "Pictures".toList]
    let dirPath := w.flagO.getD defaultDirPath
    -- Check if directory exists and is readable
    match w.stat dirPath with
    | .error err =>
      if err.IsNotExist then
        (printf s0 ("Provided directory does not exist: ".toList ++ dirPath), 1)
      else (printf s0 ("Error accessing provided directory: ".toList ++ err.text), 1)
    | .ok dirInfo =>
      if !dirInfo.IsDir then
        (printf s0 ("Provided path is not a directory: ".toList ++ dirPath), 1)
      -- Check for read permission
      else if Perm dirInfo.Mode &&& (1 <<< 7) = 0 then
        (printf s0 ("Provided directory is not readable: ".toList ++ dirPath), 1)
      else
        match getBingWallpaperURL w s0 with
        | ((_, some err), s1) =>
          (printf s1
            ("Error fetching wallpaper URL: ".toList ++ err.Error w.quote ++ "\n".toList), 1)
        | ((wallpaperURL, none), s1) =>
          match downloadWallpaper w wallpaperURL dirPath s1 with
          | ((_, some err), s2) =>
            (printf s2
              ("Error downloading wallpaper: ".toList ++ err.Error w.quote ++ "\n".toList), 1)
          | ((filePath, none), s2) =>
            (printf s2
              ("Bing wallpaper download successfully: ".toList ++ filePath ++ "\n".toList), 0)

/-! ## A concrete run: the end-to-end scenario -/

/-- The URL of the metadata endpoint. -/
def apiURL : GoString :=
  "https://www.bing.com/HPImageArchive.aspx?format=js&idx=0&n=1&mkt=en-US".toList

/-- The directory the program validates: the `-o` flag, or `<home>/Pictures`. -/
def targetDir (w : World) (homeDir : GoString) : GoString :=
  w.flagO.getD (filepath.Join [homeDir, "Pictures".toList])

/-- The body of the metadata response of the scenario. -/
def exampleMetadata : GoString :=
  "\x7b\"images\":[\x7b\"url\":\"/th?id=OHR.Test_EN-US&rf=test123.jpg\"\x7d]\x7d".toList

/-- The image URL of the scenario. -/
def exampleImageURL : GoString :=
  "https://www.bing.com/th?id=OHR.Test_EN-US&rf=test123.jpg".toList

/-- The scenario: the home directory has a `Pictures` directory with mode
`drwxr-xr-x`, the metadata endpoint names one image and the image endpoint
answers with status `status` and the payload `IMGDATA`. -/
def exampleWorld (status : Nat) : World where
  userCurrent := .ok "/home/u".toList
  flagO := none
  stat := fun p =>
    if p = "/home/u/Pictures".toList then .ok ⟨ModeDir ||| 0o755⟩
    else .error ⟨"no such file or directory".toList, true⟩
  httpGet := fun _ u =>
    if u = apiURL then .ok ⟨200, exampleMetadata⟩
    else if u = exampleImageURL then .ok ⟨status, "IMGDATA".toList⟩
    else .error "no such host".toList
  jsonDecode := fun b =>
    if b = exampleMetadata then .ok ⟨[⟨"/th?id=OHR.Test_EN-US&rf=test123.jpg".toList⟩]⟩
    else .error "unexpected end of JSON input".toList
  createError := fun _ => none
  copyError := fun _ _ => none
  quote := fun s => '"' :: s ++ ['"']
  files := fun p => if p = "/home/u/Pictures/test123.jpg".toList then some "OLD".toList else none

/-- The scenario with the target replaced by a path whose `os.Stat` answers `r`. -/
def statWorld (r : Except StatError FileInfo) : World :=
  { exampleWorld 200 with flagO := some "/srv/target".toList, stat := fun _ => r }

/-- The scenario with the metadata decoded to the given descriptors. -/
def imagesWorld (images : List Image) : World :=
  { exampleWorld 200 with jsonDecode := fun _ => .ok ⟨images⟩ }

/-- The state in which `main` calls `getBingWallpaperURL`. -/
def initialState (w : World) : State :=
  { stdout := [], requests := [], created := [], files := w.files }

/-- The scenario with every URL but the metadata endpoint answered by `resp`. -/
def imageWorld (images : List Image) (resp : Except GoString Response) : World :=
  { exampleWorld 200 with
    jsonDecode := fun _ => .ok ⟨images⟩
    httpGet := fun _ u => if u = apiURL then .ok ⟨200, exampleMetadata⟩ else resp }

/-- The world `w` with the status code of every delivered response replaced by `code n u`. -/
def withStatus (w : World) (code : Nat → GoString → Nat) : World :=
  { w with
    httpGet := fun n u =>
      match w.httpGet n u with
      | .error e => .error e
      | .ok r => .ok { r with StatusCode := code n u } }

/-- An image URL whose `rf` value climbs out of the directory. -/
def evilURL : GoString := "https://www.bing.com/th?id=OHR.Test_EN-US&rf=../evil.jpg".toList

/-- The scenario with the first descriptor naming `evilURL`. -/
def evilWorld : World :=
  imageWorld [⟨"/th?id=OHR.Test_EN-US&rf=../evil.jpg".toList⟩] (.ok ⟨200, "IMGDATA".toList⟩)

/-- The query text of literal pairs: `k1=v1&k2=v2&...`. -/
def encodePairs : List (GoString × GoString) → GoString
  | [] => []
  | [kv] => kv.1 ++ '=' :: kv.2
  | kv :: rest => kv.1 ++ '=' :: kv.2 ++ '&' :: encodePairs rest

/-- A byte that stands for itself in a query: no separator and no escape. -/
def literalByte (c : Char) : Prop :=
  c ≠ '&' ∧ c ≠ ';' ∧ c ≠ '=' ∧ c ≠ '%' ∧ c ≠ '+'

instance (c : Char) : Decidable (literalByte c) := by
  unfold literalByte
  infer_instance

/-- A pair of literal text with a non-empty key. -/
def literalPair (kv : GoString × GoString) : Prop :=
  kv.1 ≠ [] ∧ (∀ c ∈ kv.1, literalByte c) ∧ (∀ c ∈ kv.2, literalByte c)

instance (kv : GoString × GoString) : Decidable (literalPair kv) := by
  unfold literalPair
  infer_instance

/-- The text `main` prints before the path on success. -/
def successText : GoString := "Bing wallpaper download successfully: ".toList

set_option maxRecDepth 100000

/-! ## Filename extraction -/

/-- The error `extractFileName` returns for a missing or empty `rf` parameter. -/
def rfNotFound : GoError := .errorf "parameter 'rf' not found in the URL".toList

/-- C2: for every input string `extractFileName` has exactly one of three
outcomes.  It returns the parse error of `url.Parse` with an empty name exactly
when the URL does not parse; it returns the distinct error "parameter 'rf' not
found in the URL" with an empty name exactly when the URL parses and its `rf`
parameter is absent or empty; it returns a non-empty name and no error exactly
when the URL parses and `rf` is non-empty.  The two errors are different
values, so a URL that fails to parse is never reported as a missing parameter. -/
theorem extractFileName_outcomes (fileURL : GoString) :
    ((∃ e, extractFileName fileURL = ([], some (.urlError e))) ↔
        ∃ e, url.Parse fileURL = .error e) ∧
    (extractFileName fileURL = ([], some rfNotFound) ↔
        ∃ u, url.Parse fileURL = .ok u ∧ u.Query.Get "rf".toList = []) ∧
    ((∃ name, name ≠ [] ∧ extractFileName fileURL = (name, none)) ↔
        ∃ u, url.Parse fileURL = .ok u ∧ u.Query.Get "rf".toList ≠ []) ∧
    ((∃ e, extractFileName fileURL = ([], some (.urlError e))) ∨
      extractFileName fileURL = ([], some rfNotFound) ∨
      ∃ name, name ≠ [] ∧ extractFileName fileURL = (name, none)) ∧
    (∀ e, GoError.urlError e ≠ rfNotFound) ∧
    (∀ e, url.Parse fileURL = .error e → extractFileName fileURL ≠ ([], some rfNotFound)) := by
  unfold extractFileName rfNotFound
  cases hp : url.Parse fileURL with
  | error e => simp
  | ok u =>
    have key : ∀ P : url.URL → Prop,
        (∃ v, (Except.ok u : Except url.Error url.URL) = Except.ok v ∧ P v) ↔ P u := by
      intro P
      constructor
      · rintro ⟨v, h, hP⟩
        cases h
        exact hP
      · intro hP
        exact ⟨u, rfl, hP⟩
    simp only [key]
    generalize u.Query.Get "rf".toList = rf
    by_cases hrf : rf = [] <;> simp [hrf]

/-! ## Directory validation -/

/-- C3: the readability check of `main` tests bit `1<<7` of the permission
bits, which is octal 0200 (owner write), not the owner-read bit 0400.  A
directory with mode `dr-x------`, whose owner-read bit is set, is rejected with
"Provided directory is not readable"; a directory with mode `d-w-------`, whose
owner-read bit is clear, passes the check and the run goes on to success. -/
theorem readable_check_tests_owner_write_bit :
    (1 <<< 7 = 0o200) ∧
    (Perm (ModeDir ||| 0o500) &&& 0o400 ≠ 0 ∧
      (main (statWorld (.ok ⟨ModeDir ||| 0o500⟩))).1.stdout =
        ["Provided directory is not readable: /srv/target".toList] ∧
      (main (statWorld (.ok ⟨ModeDir ||| 0o500⟩))).2 = 1) ∧
    (Perm (ModeDir ||| 0o200) &&& 0o400 = 0 ∧
      (main (statWorld (.ok ⟨ModeDir ||| 0o200⟩))).1.stdout =
        ["Bing wallpaper download successfully: /srv/target/test123.jpg\n".toList] ∧
      (main (statWorld (.ok ⟨ModeDir ||| 0o200⟩))).2 = 0) := by
  refine ⟨by decide, ⟨by decide, by rfl, by rfl⟩, ⟨by decide, by rfl, by rfl⟩⟩

/-- C4: directory validation reports the first failing check.  When `os.Stat`
reports that the path does not exist, the only text printed is "Provided
directory does not exist: <path>"; when the path exists and is not a
directory, the only text printed is "Provided path is not a directory: <path>",
whatever its permission bits are.  Both runs end with status 1. -/
theorem validation_order (w : World) (homeDir : GoString)
    (huser : w.userCurrent = .ok homeDir) :
    (∀ e, w.stat (targetDir w homeDir) = .error e → e.IsNotExist = true →
      (main w).1.stdout = ["Provided directory does not exist: ".toList ++ targetDir w homeDir] ∧
      (main w).2 = 1) ∧
    (∀ fi, w.stat (targetDir w homeDir) = .ok fi → fi.IsDir = false →
      (main w).1.stdout = ["Provided path is not a directory: ".toList ++ targetDir w homeDir] ∧
      (main w).2 = 1) := by
  unfold targetDir
  constructor
  · intro e he hne
    simp only [main, huser, he, hne, printf, if_true, List.nil_append, and_self]
  · intro fi hfi hdir
    simp only [main, huser, hfi, hdir, printf, Bool.not_false, if_true, List.nil_append,
      and_self]

/-- A witness of C4: a missing path and an existing regular file with every permission bit set. -/
theorem validation_order_witness :
    ((main (statWorld (.error ⟨"no such file or directory".toList, true⟩))).1.stdout =
        ["Provided directory does not exist: /srv/target".toList] ∧
      (main (statWorld (.error ⟨"no such file or directory".toList, true⟩))).2 = 1) ∧
    ((main (statWorld (.ok ⟨0o777⟩))).1.stdout =
        ["Provided path is not a directory: /srv/target".toList] ∧
      (main (statWorld (.ok ⟨0o777⟩))).2 = 1) :=
  ⟨(validation_order (statWorld (.error ⟨"no such file or directory".toList, true⟩))
      "/home/u".toList rfl).1 _ rfl rfl,
   (validation_order (statWorld (.ok ⟨0o777⟩)) "/home/u".toList rfl).2 _ rfl rfl⟩

/-- C5: when directory validation fails (`os.Stat` fails, the path is not a
directory, or the permission check fails), the run requests no URL, creates no
file, leaves every file as it was and ends with a non-zero status.  An existing
regular file as target is the second case. -/
theorem validation_failure_no_effects (w : World) (homeDir : GoString)
    (huser : w.userCurrent = .ok homeDir)
    (hfail : (∃ e, w.stat (targetDir w homeDir) = .error e) ∨
      ∃ fi, w.stat (targetDir w homeDir) = .ok fi ∧
        (fi.IsDir = false ∨ Perm fi.Mode &&& (1 <<< 7) = 0)) :
    (main w).1.requests = [] ∧ (main w).1.created = [] ∧ (main w).1.files = w.files ∧
      (main w).2 ≠ 0 := by
  unfold targetDir at hfail
  rcases hfail with ⟨e, he⟩ | ⟨fi, hfi, hbad⟩
  · by_cases hne : e.IsNotExist = true <;>
      simp [main, huser, he, hne, printf, -String.toList]
  · rcases hbad with hdir | hperm
    · simp [main, huser, hfi, hdir, printf, -String.toList]
    · have hperm2 : Perm fi.Mode &&& 128 = 0 := hperm
      by_cases hdir : fi.IsDir = true <;>
        simp [main, huser, hfi, hdir, hperm2, printf, -String.toList]

/-- A witness of C5: the target is an existing regular file. -/
theorem validation_failure_no_effects_witness :
    (main (statWorld (.ok ⟨0o644⟩))).1.requests = [] ∧
      (main (statWorld (.ok ⟨0o644⟩))).1.created = [] ∧
      (main (statWorld (.ok ⟨0o644⟩))).1.files = (statWorld (.ok ⟨0o644⟩)).files ∧
      (main (statWorld (.ok ⟨0o644⟩))).2 ≠ 0 :=
  validation_failure_no_effects (statWorld (.ok ⟨0o644⟩)) "/home/u".toList rfl
    (Or.inr ⟨⟨0o644⟩, rfl, Or.inl rfl⟩)

/-! ## Metadata fetch -/

theorem getBingWallpaperURL_of_cons (w : World) (s : State) (resp : Response)
    (data : BingAPIResponse) (first : Image) (later : List Image)
    (hget : w.httpGet s.requests.length apiURL = .ok resp)
    (hdec : w.jsonDecode resp.Body = .ok data) (him : data.Images = first :: later) :
    (getBingWallpaperURL w s).1 = ("https://www.bing.com".toList ++ first.URL, none) := by
  unfold apiURL at hget
  simp [getBingWallpaperURL, hget, hdec, him, -String.toList]

/-- C6: when the metadata response decodes to at least one descriptor,
`getBingWallpaperURL` returns `https://www.bing.com` followed by the url of the
first descriptor and no error, whatever the later descriptors are; when it
decodes to zero descriptors, it returns no URL and the error "no images found
in the response". -/
theorem getBingWallpaperURL_first (w : World) (s : State) (resp : Response)
    (data : BingAPIResponse)
    (hget : w.httpGet s.requests.length apiURL = .ok resp)
    (hdec : w.jsonDecode resp.Body = .ok data) :
    (∀ first later, data.Images = first :: later →
      (getBingWallpaperURL w s).1 = ("https://www.bing.com".toList ++ first.URL, none)) ∧
    (data.Images = [] →
      (getBingWallpaperURL w s).1 =
        ([], some (.errorf "no images found in the response".toList))) := by
  unfold apiURL at hget
  constructor
  · intro first later him
    exact getBingWallpaperURL_of_cons w s resp data first later
      (by unfold apiURL; exact hget) hdec him
  · intro him
    simp [getBingWallpaperURL, hget, hdec, him, -String.toList]

/-- A witness of C6: two descriptors, and none. -/
theorem getBingWallpaperURL_first_witness :
    (getBingWallpaperURL (imagesWorld [⟨"/a?rf=1.jpg".toList⟩, ⟨"/b?rf=2.jpg".toList⟩])
        (initialState (exampleWorld 200))).1 = ("https://www.bing.com/a?rf=1.jpg".toList, none) ∧
    (getBingWallpaperURL (imagesWorld []) (initialState (exampleWorld 200))).1 =
        ([], some (.errorf "no images found in the response".toList)) :=
  ⟨(getBingWallpaperURL_first
      (imagesWorld [⟨"/a?rf=1.jpg".toList⟩, ⟨"/b?rf=2.jpg".toList⟩])
      (initialState (exampleWorld 200)) ⟨200, exampleMetadata⟩
      ⟨[⟨"/a?rf=1.jpg".toList⟩, ⟨"/b?rf=2.jpg".toList⟩]⟩ rfl rfl).1 _ _ rfl,
   (getBingWallpaperURL_first (imagesWorld []) (initialState (exampleWorld 200))
      ⟨200, exampleMetadata⟩ ⟨[]⟩ rfl rfl).2 rfl⟩

/-! ## The pipeline -/

theorem getBingWallpaperURL_state (w : World) (s : State) :
    (getBingWallpaperURL w s).2 = { s with requests := s.requests ++ [apiURL] } := by
  unfold getBingWallpaperURL apiURL
  dsimp only
  split
  · rfl
  · split
    · rfl
    · split <;> rfl

theorem downloadWallpaper_stdout (w : World) (bingURL dirPath : GoString) (s : State) :
    (downloadWallpaper w bingURL dirPath s).2.stdout = s.stdout := by
  unfold downloadWallpaper
  dsimp only
  split
  · rfl
  · split
    · rfl
    · split
      · rfl
      · split <;> rfl

theorem hasPrefix_success_fetch (x : GoString) :
    strings.HasPrefix ("Error fetching wallpaper URL: ".toList ++ x) successText = false := rfl

theorem hasPrefix_success_download (x : GoString) :
    strings.HasPrefix ("Error downloading wallpaper: ".toList ++ x) successText = false := rfl

theorem hasPrefix_success_user (x : GoString) :
    strings.HasPrefix ("Error getting current user: ".toList ++ x) successText = false := rfl

theorem hasPrefix_success_missing (x : GoString) :
    strings.HasPrefix ("Provided directory does not exist: ".toList ++ x) successText = false := rfl

theorem hasPrefix_success_access (x : GoString) :
    strings.HasPrefix ("Error accessing provided directory: ".toList ++ x) successText = false :=
  rfl

theorem hasPrefix_success_notdir (x : GoString) :
    strings.HasPrefix ("Provided path is not a directory: ".toList ++ x) successText = false := rfl

theorem hasPrefix_success_unreadable (x : GoString) :
    strings.HasPrefix ("Provided directory is not readable: ".toList ++ x) successText = false :=
  rfl

theorem main_metadata_error (w : World) (homeDir : GoString) (fi : FileInfo)
    (huser : w.userCurrent = .ok homeDir) (hstat : w.stat (targetDir w homeDir) = .ok fi)
    (hdir : fi.IsDir = true) (hperm : Perm fi.Mode &&& (1 <<< 7) ≠ 0)
    (x : GoString) (err : GoError) (s1 : State)
    (hmeta : getBingWallpaperURL w (initialState w) = ((x, some err), s1)) :
    main w = (printf s1
      ("Error fetching wallpaper URL: ".toList ++ err.Error w.quote ++ "\n".toList), 1) := by
  unfold targetDir at hstat
  unfold initialState at hmeta
  have hperm2 : ¬ (Perm fi.Mode &&& 128 = 0) := hperm
  simp [main, huser, hstat, hdir, hperm2, hmeta, -String.toList]

theorem main_download_error (w : World) (homeDir : GoString) (fi : FileInfo)
    (huser : w.userCurrent = .ok homeDir) (hstat : w.stat (targetDir w homeDir) = .ok fi)
    (hdir : fi.IsDir = true) (hperm : Perm fi.Mode &&& (1 <<< 7) ≠ 0)
    (wallpaperURL : GoString) (s1 : State)
    (hmeta : getBingWallpaperURL w (initialState w) = ((wallpaperURL, none), s1))
    (r : GoString) (err : GoError) (s2 : State)
    (hdown : downloadWallpaper w wallpaperURL (targetDir w homeDir) s1 = ((r, some err), s2)) :
    main w = (printf s2
      ("Error downloading wallpaper: ".toList ++ err.Error w.quote ++ "\n".toList), 1) := by
  unfold targetDir at hstat hdown
  unfold initialState at hmeta
  have hperm2 : ¬ (Perm fi.Mode &&& 128 = 0) := hperm
  simp [main, huser, hstat, hdir, hperm2, hmeta, hdown, -String.toList]

theorem main_download_ok (w : World) (homeDir : GoString) (fi : FileInfo)
    (huser : w.userCurrent = .ok homeDir) (hstat : w.stat (targetDir w homeDir) = .ok fi)
    (hdir : fi.IsDir = true) (hperm : Perm fi.Mode &&& (1 <<< 7) ≠ 0)
    (wallpaperURL : GoString) (s1 : State)
    (hmeta : getBingWallpaperURL w (initialState w) = ((wallpaperURL, none), s1))
    (r : GoString) (s2 : State)
    (hdown : downloadWallpaper w wallpaperURL (targetDir w homeDir) s1 = ((r, none), s2)) :
    main w = (printf s2 (successText ++ r ++ "\n".toList), 0) := by
  unfold targetDir at hstat hdown
  unfold initialState at hmeta
  have hperm2 : ¬ (Perm fi.Mode &&& 128 = 0) := hperm
  simp [main, huser, hstat, hdir, hperm2, hmeta, hdown, successText, -String.toList]

/-- C9: the pipeline is fail-fast.  In every run that passes validation and
whose metadata stage fails (the GET fails, the body does not decode, or it
decodes to zero descriptors), the metadata endpoint is the only URL requested,
no file is created or changed, the only text printed is "Error fetching
wallpaper URL: " followed by the stage's error, and the exit status is 1.
Conversely, a run that prints the success message passed validation and got a
nil error from both `getBingWallpaperURL` and `downloadWallpaper`. -/
theorem pipeline_fail_fast (w : World) :
    (∀ homeDir fi, w.userCurrent = .ok homeDir → w.stat (targetDir w homeDir) = .ok fi →
      fi.IsDir = true → Perm fi.Mode &&& (1 <<< 7) ≠ 0 →
      ((∃ e, w.httpGet 0 apiURL = .error e) ∨
        ∃ resp, w.httpGet 0 apiURL = .ok resp ∧
          ((∃ e, w.jsonDecode resp.Body = .error e) ∨
            ∃ data, w.jsonDecode resp.Body = .ok data ∧ data.Images = [])) →
      ∃ err, (getBingWallpaperURL w (initialState w)).1 = ([], some err) ∧
        (main w).1.requests = [apiURL] ∧ (main w).1.created = [] ∧
        (main w).1.files = w.files ∧
        (main w).1.stdout =
          ["Error fetching wallpaper URL: ".toList ++ err.Error w.quote ++ "\n".toList] ∧
        (main w).2 = 1) ∧
    ((∃ text ∈ (main w).1.stdout, strings.HasPrefix text successText = true) →
      ∃ homeDir fi wallpaperURL filePath s1 s2,
        w.userCurrent = .ok homeDir ∧ w.stat (targetDir w homeDir) = .ok fi ∧
        fi.IsDir = true ∧ Perm fi.Mode &&& (1 <<< 7) ≠ 0 ∧
        getBingWallpaperURL w (initialState w) = ((wallpaperURL, none), s1) ∧
        downloadWallpaper w wallpaperURL (targetDir w homeDir) s1 = ((filePath, none), s2) ∧
        (main w).2 = 0) := by
  constructor
  · intro homeDir fi huser hstat hdir hperm hfail
    have hst := getBingWallpaperURL_state w (initialState w)
    have key : ∃ err, (getBingWallpaperURL w (initialState w)).1 = ([], some err) := by
      unfold apiURL at hfail
      rcases hfail with ⟨e, he⟩ | ⟨resp, hresp, ⟨e, he⟩ | ⟨data, hdata, himg⟩⟩
      · exact ⟨.external e, by simp [getBingWallpaperURL, initialState, he, -String.toList]⟩
      · exact ⟨.external e, by
          simp [getBingWallpaperURL, initialState, hresp, he, -String.toList]⟩
      · exact ⟨.errorf "no images found in the response".toList, by
          simp [getBingWallpaperURL, initialState, hresp, hdata, himg, -String.toList]⟩
    obtain ⟨err, herr⟩ := key
    refine ⟨err, herr, ?_⟩
    have hmeta : getBingWallpaperURL w (initialState w) =
        (([], some err), { initialState w with requests := (initialState w).requests ++ [apiURL] }) :=
      Prod.ext herr hst
    rw [main_metadata_error w homeDir fi huser hstat hdir hperm [] err _ hmeta]
    simp [printf, initialState, -String.toList]
  · rintro ⟨text, hmem, hpre⟩
    cases huser : w.userCurrent with
    | error e =>
      simp [main, huser, printf, -String.toList] at hmem
      subst hmem
      rw [hasPrefix_success_user] at hpre
      cases hpre
    | ok homeDir =>
      cases hstat : w.stat (targetDir w homeDir) with
      | error e =>
        unfold targetDir at hstat
        by_cases hne : e.IsNotExist = true <;>
          simp [main, huser, hstat, hne, printf, -String.toList] at hmem <;>
          subst hmem
        · rw [hasPrefix_success_missing] at hpre
          cases hpre
        · rw [hasPrefix_success_access] at hpre
          cases hpre
      | ok fi =>
        by_cases hdir : fi.IsDir = true
        swap
        · unfold targetDir at hstat
          simp [main, huser, hstat, hdir, printf, -String.toList] at hmem
          subst hmem
          rw [hasPrefix_success_notdir] at hpre
          cases hpre
        by_cases hperm : Perm fi.Mode &&& (1 <<< 7) = 0
        · unfold targetDir at hstat
          have hperm2 : Perm fi.Mode &&& 128 = 0 := hperm
          simp [main, huser, hstat, hdir, hperm2, printf, -String.toList] at hmem
          subst hmem
          rw [hasPrefix_success_unreadable] at hpre
          cases hpre
        have hst := getBingWallpaperURL_state w (initialState w)
        cases h1 : getBingWallpaperURL w (initialState w) with
        | mk r1 s1 =>
          obtain ⟨wallpaperURL, oerr⟩ := r1
          rw [h1] at hst
          have hs1 : s1.stdout = [] := by
            have := congrArg State.stdout hst
            simpa [initialState] using this
          cases oerr with
          | some err =>
            rw [main_metadata_error w homeDir fi huser hstat hdir hperm _ err s1 h1] at hmem
            simp [printf, hs1, -String.toList] at hmem
            subst hmem
            rw [hasPrefix_success_fetch] at hpre
            cases hpre
          | none =>
            have hout := downloadWallpaper_stdout w wallpaperURL (targetDir w homeDir) s1
            cases h2 : downloadWallpaper w wallpaperURL (targetDir w homeDir) s1 with
            | mk r2 s2 =>
              obtain ⟨filePath, oerr2⟩ := r2
              rw [h2] at hout
              have hs2 : s2.stdout = [] := by simpa [hs1] using hout
              cases oerr2 with
              | some err =>
                rw [main_download_error w homeDir fi huser hstat hdir hperm wallpaperURL s1 h1
                  filePath err s2 h2] at hmem
                simp [printf, hs2, -String.toList] at hmem
                subst hmem
                rw [hasPrefix_success_download] at hpre
                cases hpre
              | none =>
                exact ⟨homeDir, fi, wallpaperURL, filePath, s1, s2, rfl, hstat, hdir, hperm,
                  rfl, h2, by
                    rw [main_download_ok w homeDir fi huser hstat hdir hperm wallpaperURL s1 h1
                      filePath s2 h2]⟩

/-- A witness of C9: the metadata decodes to zero descriptors. -/
theorem pipeline_fail_fast_witness :
    ∃ err, (getBingWallpaperURL (imagesWorld []) (initialState (imagesWorld []))).1 =
        ([], some err) ∧
      (main (imagesWorld [])).1.requests = [apiURL] ∧ (main (imagesWorld [])).1.created = [] ∧
      (main (imagesWorld [])).1.files = (imagesWorld []).files ∧
      (main (imagesWorld [])).1.stdout =
        ["Error fetching wallpaper URL: ".toList ++ err.Error (imagesWorld []).quote ++
          "\n".toList] ∧
      (main (imagesWorld [])).2 = 1 :=
  (pipeline_fail_fast (imagesWorld [])).1 "/home/u".toList ⟨ModeDir ||| 0o755⟩ rfl rfl rfl
    (by decide) (Or.inr ⟨⟨200, exampleMetadata⟩, rfl, Or.inr ⟨⟨[]⟩, rfl, rfl⟩⟩)

theorem extractFileName_of_parse (fileURL : GoString) (u : url.URL)
    (hparse : url.Parse fileURL = .ok u) (hrf : u.Query.Get "rf".toList ≠ []) :
    extractFileName fileURL = (u.Query.Get "rf".toList, none) := by
  unfold extractFileName
  rw [hparse]
  dsimp only
  rw [if_neg hrf]

theorem downloadWallpaper_success (w : World) (bingURL dirPath : GoString) (s : State)
    (status : Nat) (body name : GoString)
    (hget : w.httpGet s.requests.length bingURL = .ok ⟨status, body⟩)
    (hname : extractFileName bingURL = (name, none))
    (hcreate : w.createError (filepath.Join [dirPath, name]) = none)
    (hcopy : w.copyError (filepath.Join [dirPath, name]) body = none) :
    downloadWallpaper w bingURL dirPath s =
      ((filepath.Join [dirPath, name], none),
        { s with
          requests := s.requests ++ [bingURL]
          created := s.created ++ [filepath.Join [dirPath, name]]
          files := writeFile (writeFile s.files (filepath.Join [dirPath, name]) [])
            (filepath.Join [dirPath, name]) body }) := by
  unfold downloadWallpaper
  simp only [hget, hname, hcreate, hcopy]

/-- C8: end to end.  In every run where the directory passes the validation
of `main`, the metadata decodes to at least one descriptor, the image URL
built from the first descriptor parses and has a non-empty `rf`, the image GET
delivers the body `B`, and creating the file and copying into it succeed, the
file at `filepath.Join(dir, rf)` holds exactly `B` after the run whatever it
held before, no other file is created or changed, the exit status is 0 and the
last text printed is "Bing wallpaper download successfully: <path>" with the
path of that file. -/
theorem end_to_end (w : World) (homeDir : GoString) (fi : FileInfo) (resp : Response)
    (data : BingAPIResponse) (first : Image) (later : List Image) (u : url.URL)
    (status : Nat) (B : GoString)
    (huser : w.userCurrent = .ok homeDir)
    (hstat : w.stat (targetDir w homeDir) = .ok fi)
    (hdir : fi.IsDir = true)
    (hperm : Perm fi.Mode &&& (1 <<< 7) ≠ 0)
    (hmeta : w.httpGet 0 apiURL = .ok resp)
    (hdec : w.jsonDecode resp.Body = .ok data)
    (himg : data.Images = first :: later)
    (hparse : url.Parse ("https://www.bing.com".toList ++ first.URL) = .ok u)
    (hrf : u.Query.Get "rf".toList ≠ [])
    (hget : w.httpGet 1 ("https://www.bing.com".toList ++ first.URL) = .ok ⟨status, B⟩)
    (hcreate :
      w.createError (filepath.Join [targetDir w homeDir, u.Query.Get "rf".toList]) = none)
    (hcopy :
      w.copyError (filepath.Join [targetDir w homeDir, u.Query.Get "rf".toList]) B = none) :
    (main w).1.files (filepath.Join [targetDir w homeDir, u.Query.Get "rf".toList]) = some B ∧
    (∀ q, q ≠ filepath.Join [targetDir w homeDir, u.Query.Get "rf".toList] →
      (main w).1.files q = w.files q) ∧
    (main w).1.created = [filepath.Join [targetDir w homeDir, u.Query.Get "rf".toList]] ∧
    (main w).1.requests = [apiURL, "https://www.bing.com".toList ++ first.URL] ∧
    (main w).2 = 0 ∧
    (main w).1.stdout.getLast? =
      some ("Bing wallpaper download successfully: ".toList ++
        filepath.Join [targetDir w homeDir, u.Query.Get "rf".toList] ++ "\n".toList) := by
  have h1 : getBingWallpaperURL w (initialState w) =
      (("https://www.bing.com".toList ++ first.URL, none),
        { initialState w with requests := (initialState w).requests ++ [apiURL] }) := by
    refine Prod.ext ?_ (getBingWallpaperURL_state w _)
    exact getBingWallpaperURL_of_cons w (initialState w) resp data first later hmeta hdec himg
  have hname := extractFileName_of_parse _ u hparse hrf
  have h2 := downloadWallpaper_success w ("https://www.bing.com".toList ++ first.URL)
    (targetDir w homeDir)
    { initialState w with requests := (initialState w).requests ++ [apiURL] }
    status B _ hget hname hcreate hcopy
  rw [main_download_ok w homeDir fi huser hstat hdir hperm _ _ h1 _ _ h2]
  generalize filepath.Join [targetDir w homeDir, u.Query.Get "rf".toList] = path
  simp [printf, initialState, writeFile, successText, -String.toList]
  intro q hq
  simp [hq]

/-- A witness of C8: the scenario of the specification, with an old file of the
same name in the directory. -/
theorem end_to_end_witness :
    (main (exampleWorld 200)).1.files "/home/u/Pictures/test123.jpg".toList =
      some "IMGDATA".toList ∧
    (∀ q, q ≠ "/home/u/Pictures/test123.jpg".toList →
      (main (exampleWorld 200)).1.files q = (exampleWorld 200).files q) ∧
    (main (exampleWorld 200)).1.created = ["/home/u/Pictures/test123.jpg".toList] ∧
    (main (exampleWorld 200)).1.requests = [apiURL, exampleImageURL] ∧
    (main (exampleWorld 200)).2 = 0 ∧
    (main (exampleWorld 200)).1.stdout.getLast? =
      some "Bing wallpaper download successfully: /home/u/Pictures/test123.jpg\n".toList :=
  end_to_end (exampleWorld 200) "/home/u".toList ⟨ModeDir ||| 0o755⟩ ⟨200, exampleMetadata⟩
    ⟨[⟨"/th?id=OHR.Test_EN-US&rf=test123.jpg".toList⟩]⟩
    ⟨"/th?id=OHR.Test_EN-US&rf=test123.jpg".toList⟩ []
    { Scheme := "https".toList, Host := "www.bing.com".toList, Path := "/th".toList,
      RawQuery := "id=OHR.Test_EN-US&rf=test123.jpg".toList }
    200 "IMGDATA".toList rfl rfl rfl (by decide) rfl rfl rfl rfl (by decide) rfl rfl rfl

/-! ## The status code of the image response -/

theorem getBingWallpaperURL_withStatus (w : World) (code : Nat → GoString → Nat) (s : State) :
    getBingWallpaperURL (withStatus w code) s = getBingWallpaperURL w s := by
  unfold getBingWallpaperURL withStatus
  dsimp only
  cases w.httpGet s.requests.length
    "https://www.bing.com/HPImageArchive.aspx?format=js&idx=0&n=1&mkt=en-US".toList <;> rfl

theorem downloadWallpaper_withStatus (w : World) (code : Nat → GoString → Nat)
    (bingURL dirPath : GoString) (s : State) :
    downloadWallpaper (withStatus w code) bingURL dirPath s =
      downloadWallpaper w bingURL dirPath s := by
  unfold downloadWallpaper withStatus
  dsimp only
  cases w.httpGet s.requests.length bingURL <;> rfl

/-- C10: `downloadWallpaper` never reads the status code of the response.
Replacing the status code of every delivered response by any other value
changes neither the result and effects of `downloadWallpaper` nor the run of
`main`; and for every status code, when the transport delivers a response, the
URL has a non-empty `rf` and creating and copying succeed, the body is written
to the output file and the path is returned with a nil error. -/
theorem status_code_ignored (w : World) (code : Nat → GoString → Nat) :
    (∀ bingURL dirPath s,
      downloadWallpaper (withStatus w code) bingURL dirPath s =
        downloadWallpaper w bingURL dirPath s) ∧
    main (withStatus w code) = main w ∧
    (∀ bingURL dirPath s status body name,
      w.httpGet s.requests.length bingURL = .ok ⟨status, body⟩ →
      extractFileName bingURL = (name, none) →
      w.createError (filepath.Join [dirPath, name]) = none →
      w.copyError (filepath.Join [dirPath, name]) body = none →
      (downloadWallpaper w bingURL dirPath s).1 = (filepath.Join [dirPath, name], none) ∧
      (downloadWallpaper w bingURL dirPath s).2.files (filepath.Join [dirPath, name]) =
        some body) := by
  refine ⟨fun bingURL dirPath s => downloadWallpaper_withStatus w code bingURL dirPath s, ?_, ?_⟩
  · unfold main
    simp only [getBingWallpaperURL_withStatus, downloadWallpaper_withStatus]
    rfl
  · intro bingURL dirPath s status body name hget hname hcreate hcopy
    rw [downloadWallpaper_success w bingURL dirPath s status body name hget hname hcreate hcopy]
    simp [writeFile]

/-- A witness of C10: the image endpoint of the scenario answers 404 or 500
and the run still reports success with status 0; a direct call stores the body
of a 404 response. -/
theorem status_code_ignored_witness :
    ((main (withStatus (exampleWorld 200) (fun _ _ => 404))).2 = 0 ∧
      (main (withStatus (exampleWorld 200) (fun _ _ => 404))).1.stdout =
        ["Bing wallpaper download successfully: /home/u/Pictures/test123.jpg\n".toList]) ∧
    ((downloadWallpaper (exampleWorld 404) exampleImageURL "/home/u/Pictures".toList
        (initialState (exampleWorld 404))).1 = ("/home/u/Pictures/test123.jpg".toList, none) ∧
      (downloadWallpaper (exampleWorld 404) exampleImageURL "/home/u/Pictures".toList
        (initialState (exampleWorld 404))).2.files "/home/u/Pictures/test123.jpg".toList =
        some "IMGDATA".toList) :=
  ⟨(status_code_ignored (exampleWorld 200) (fun _ _ => 404)).2.1 ▸ ⟨rfl, rfl⟩,
   (status_code_ignored (exampleWorld 404) (fun _ _ => 0)).2.2 exampleImageURL
      "/home/u/Pictures".toList (initialState (exampleWorld 404)) 404 "IMGDATA".toList
      "test123.jpg".toList rfl rfl rfl rfl⟩

section JoinSingle

open filepath

/-! ## `filepath.Join` with a single path element -/

theorem takeWhile_append_slash (p x : GoString) :
    (p ++ '/' :: x).takeWhile (fun b => b != '/') = p.takeWhile (fun b => b != '/') := by
  induction p with
  | nil => simp [List.takeWhile_cons]
  | cons c p ih =>
    by_cases hc : c = '/'
    · simp [List.takeWhile_cons, hc]
    · simp [List.takeWhile_cons, hc, ih]

theorem dropWhile_append_slash (p x : GoString) :
    (p ++ '/' :: x).dropWhile (fun b => b != '/') =
      p.dropWhile (fun b => b != '/') ++ '/' :: x := by
  induction p with
  | nil => simp [List.dropWhile_cons]
  | cons c p ih =>
    by_cases hc : c = '/'
    · simp [List.dropWhile_cons, hc]
    · simp [List.dropWhile_cons, hc, ih]

theorem takeWhile_no_slash (name : GoString) (h : '/' ∉ name) :
    name.takeWhile (fun b => b != '/') = name := by
  induction name with
  | nil => rfl
  | cons c p ih =>
    simp only [List.mem_cons, not_or] at h
    have hc : c ≠ '/' := fun e => h.1 e.symm
    simp [List.takeWhile_cons, hc, ih h.2]

theorem dropWhile_no_slash (name : GoString) (h : '/' ∉ name) :
    name.dropWhile (fun b => b != '/') = [] := by
  induction name with
  | nil => rfl
  | cons c p ih =>
    simp only [List.mem_cons, not_or] at h
    have hc : c ≠ '/' := fun e => h.1 e.symm
    simp [List.dropWhile_cons, hc, ih h.2]

theorem dropWhile_length_le (p : GoString) :
    (p.dropWhile (fun b => b != '/')).length ≤ p.length := by
  induction p with
  | nil => simp
  | cons c p ih =>
    by_cases hc : c = '/'
    · simp [List.dropWhile_cons, hc]
    · simp [List.dropWhile_cons, hc]; omega

theorem cleanLoop_nil (rooted : Bool) (fuel : Nat) (out : GoString) (dotdot : Nat) :
    cleanLoop rooted fuel [] out dotdot = out := by
  cases fuel <;> simp [cleanLoop]

theorem cleanLoop_name (rooted : Bool) (fuel : Nat) (name out : GoString) (dotdot : Nat)
    (hne : name ≠ []) (hslash : '/' ∉ name) (hdot : name ≠ ['.']) (hdd : name ≠ ['.', '.']) :
    cleanLoop rooted (fuel + 1) name out dotdot = addElem rooted out name := by
  cases name with
  | nil => exact absurd rfl hne
  | cons c rest =>
    have hc : c ≠ '/' := fun e => hslash (by simp [e])
    have h2 : ¬ (c = '.' ∧ (rest = [] ∨ rest.head? = some '/')) := by
      rintro ⟨rfl, h | h⟩
      · exact hdot (by rw [h])
      · cases rest with
        | nil => simp at h
        | cons d r =>
          simp at h
          exact hslash (by simp [h])
    have h3 : ¬ (c = '.' ∧ rest.head? = some '.' ∧
        (rest.tail = [] ∨ rest.tail.head? = some '/')) := by
      rintro ⟨rfl, hh, h⟩
      cases rest with
      | nil => simp at hh
      | cons d r =>
        simp at hh
        subst hh
        rcases h with h | h
        · simp at h
          exact hdd (by rw [h])
        · cases r with
          | nil => simp at h
          | cons e r2 =>
            simp at h
            exact hslash (by simp [h])
    rw [cleanLoop]
    simp only [if_neg hc, if_neg h2, if_neg h3]
    rw [takeWhile_no_slash _ hslash, dropWhile_no_slash _ hslash, cleanLoop_nil]
    rfl

theorem lookahead_dot (rest x : GoString) :
    (rest ++ '/' :: x = [] ∨ (rest ++ '/' :: x).head? = some '/') ↔
      (rest = [] ∨ rest.head? = some '/') := by
  cases rest <;> simp

theorem lookahead_dotdot (rest x : GoString) :
    ((rest ++ '/' :: x).head? = some '.' ∧
        ((rest ++ '/' :: x).tail = [] ∨ (rest ++ '/' :: x).tail.head? = some '/')) ↔
      (rest.head? = some '.' ∧ (rest.tail = [] ∨ rest.tail.head? = some '/')) := by
  cases rest with
  | nil => simp
  | cons d r => cases r <;> simp

theorem tail_append_of_head (rest x : GoString) (h : rest.head? = some '.') :
    (rest ++ x).tail = rest.tail ++ x := by
  cases rest with
  | nil => simp at h
  | cons d r => rfl

theorem cleanLoop_append (rooted : Bool) (name : GoString)
    (hne : name ≠ []) (hslash : '/' ∉ name) (hdot : name ≠ ['.']) (hdd : name ≠ ['.', '.']) :
    ∀ (n : Nat) (p out : GoString) (dotdot F : Nat), p.length ≤ n → p.length + 2 ≤ F →
      cleanLoop rooted F (p ++ '/' :: name) out dotdot =
        addElem rooted (cleanLoop rooted n p out dotdot) name := by
  intro n
  induction n with
  | zero =>
    intro p out dotdot F hp hF
    have hp0 : p = [] := List.length_eq_zero.mp (Nat.le_zero.mp hp)
    subst hp0
    obtain ⟨F2, rfl⟩ : ∃ F2, F = F2 + 2 := ⟨F - 2, by simp at hF; omega⟩
    rw [List.nil_append, cleanLoop_nil, cleanLoop]
    simp only [↓reduceIte]
    rw [cleanLoop_name rooted F2 name out dotdot hne hslash hdot hdd]
  | succ n ih =>
    intro p out dotdot F hp hF
    cases p with
    | nil =>
      obtain ⟨F2, rfl⟩ : ∃ F2, F = F2 + 2 := ⟨F - 2, by simp at hF; omega⟩
      rw [List.nil_append, cleanLoop_nil, cleanLoop]
      simp only [↓reduceIte]
      rw [cleanLoop_name rooted F2 name out dotdot hne hslash hdot hdd]
    | cons c rest =>
      obtain ⟨F1, rfl⟩ : ∃ F1, F = F1 + 1 := ⟨F - 1, by omega⟩
      simp only [List.length_cons] at hp hF
      have hrest : rest.length ≤ n := by omega
      have hF1 : rest.length + 2 ≤ F1 := by omega
      rw [List.cons_append, cleanLoop, cleanLoop]
      simp only [lookahead_dot, lookahead_dotdot]
      by_cases h1 : c = '/'
      · simp only [if_pos h1]
        exact ih rest out dotdot F1 hrest hF1
      · simp only [if_neg h1]
        by_cases h2 : c = '.' ∧ (rest = [] ∨ rest.head? = some '/')
        · simp only [if_pos h2]
          exact ih rest out dotdot F1 hrest hF1
        · simp only [if_neg h2]
          by_cases h3 : c = '.' ∧ rest.head? = some '.' ∧
              (rest.tail = [] ∨ rest.tail.head? = some '/')
          · simp only [if_pos h3]
            rw [tail_append_of_head rest _ h3.2.1]
            have htl : rest.tail.length ≤ n := by
              rw [List.length_tail]; omega
            have hF2 : rest.tail.length + 2 ≤ F1 := by
              rw [List.length_tail]; omega
            by_cases h4 : dotdot < out.length
            · simp only [if_pos h4]
              exact ih _ _ _ F1 htl hF2
            · simp only [if_neg h4]
              cases rooted with
              | true => exact ih _ _ _ F1 htl hF2
              | false => exact ih _ _ _ F1 htl hF2
          · simp only [if_neg h3]
            rw [← List.cons_append, takeWhile_append_slash, dropWhile_append_slash]
            have hdl := dropWhile_length_le rest
            simp only [List.dropWhile_cons, bne_iff_ne, ne_eq, h1, not_false_eq_true,
              decide_True, if_true]
            exact ih _ _ _ F1 (by omega) (by omega)

theorem backtrack_spec (out : GoString) (dotdot : Nat) :
    ∀ w0, dotdot ≤ w0 →
      dotdot ≤ backtrack out dotdot w0 ∧ backtrack out dotdot w0 ≤ w0 ∧
      (backtrack out dotdot w0 = dotdot ∨ out.get? (backtrack out dotdot w0) = some '/') := by
  intro w0
  induction w0 with
  | zero =>
    intro h
    have : dotdot = 0 := by omega
    simp [backtrack, this]
  | succ w ih =>
    intro h
    rw [backtrack]
    by_cases hc : dotdot < w + 1 ∧ out.get? (w + 1) ≠ some '/'
    · rw [if_pos hc]
      have := ih (by omega)
      exact ⟨this.1, by omega, this.2.2⟩
    · rw [if_neg hc]
      refine ⟨h, le_refl _, ?_⟩
      by_cases hlt : dotdot < w + 1
      · right
        by_contra hne
        exact hc ⟨hlt, hne⟩
      · left
        omega

theorem cleanInv_take (rooted : Bool) (out : GoString) (dotdot w : Nat)
    (hinv : CleanInv rooted out dotdot) (hdw : dotdot ≤ w) (hw : w < out.length)
    (hstop : w = dotdot ∨ out.get? w = some '/') :
    CleanInv rooted (out.take w) dotdot := by
  obtain ⟨hr, hu, hdot, hds⟩ := hinv
  cases out with
  | nil => simp at hw
  | cons a t =>
    cases w with
    | zero =>
      refine ⟨?_, ?_, by simp, by simp⟩
      · intro h
        have := (hr h).1
        omega
      · intro h
        exact ⟨(hu h).1, by simp⟩
    | succ w =>
      cases t with
      | nil => simp at hw
      | cons b t =>
      cases w with
      | zero =>
        refine ⟨?_, ?_, ?_, by simp⟩
        · intro h
          exact ⟨(hr h).1, by simpa using (hr h).2⟩
        · intro h
          exact ⟨(hu h).1, by simpa using (hu h).2⟩
        · intro h
          simp at h
          subst h
          rcases hstop with h1 | h1
          · cases rooted with
            | true =>
              have := (hr rfl).2
              simp at this
            | false =>
              exact (hu rfl).1 h1.symm
          · simp at h1
            subst h1
            exact hds t rfl
      | succ w =>
        refine ⟨?_, ?_, by simp, ?_⟩
        · intro h
          exact ⟨(hr h).1, by simpa using (hr h).2⟩
        · intro h
          exact ⟨(hu h).1, by simpa using (hu h).2⟩
        · intro t2 h
          simp at h
          obtain ⟨ha, hb, _⟩ := h
          subst ha hb
          exact hds t rfl

theorem cleanInv_addElem (rooted : Bool) (out e : GoString) (dotdot : Nat)
    (hinv : CleanInv rooted out dotdot) (hhead : e.head? ≠ some '/')
    (hdot : e ≠ ['.']) (hds : ∀ t, e ≠ '.' :: '/' :: t) :
    CleanInv rooted (addElem rooted out e) dotdot := by
  obtain ⟨hr, hu, hodot, hods⟩ := hinv
  cases out with
  | nil =>
    cases rooted with
    | true =>
      have := (hr rfl).2
      simp at this
    | false =>
      have : addElem false [] e = e := by simp [addElem]
      rw [this]
      exact ⟨by simp, fun _ => ⟨(hu rfl).1, hhead⟩, hdot, hds⟩
  | cons a t =>
    cases t with
    | nil =>
      cases rooted with
      | true =>
        have ha := (hr rfl).2
        simp at ha
        subst ha
        have : addElem true ['/'] e = '/' :: e := by simp [addElem]
        rw [this]
        exact ⟨fun _ => ⟨(hr rfl).1, rfl⟩, by simp, by simp, by simp⟩
      | false =>
        have : addElem false [a] e = a :: '/' :: e := by simp [addElem]
        rw [this]
        refine ⟨by simp, fun _ => ⟨(hu rfl).1, by simpa using (hu rfl).2⟩, by simp, ?_⟩
        intro t2 h
        simp at h
        exact hodot (by rw [h.1])
    | cons b t =>
      have : addElem rooted (a :: b :: t) e = a :: b :: (t ++ '/' :: e) := by
        cases rooted <;> simp [addElem]
      rw [this]
      refine ⟨fun h => ⟨(hr h).1, by simpa using (hr h).2⟩,
        fun h => ⟨(hu h).1, by simpa using (hu h).2⟩, by simp, ?_⟩
      intro t2 h
      simp at h
      exact hods t (by rw [h.1, h.2.1])

theorem takeWhile_eq_nil_iff_lookahead (rest : GoString) :
    rest.takeWhile (fun b => b != '/') = [] ↔ (rest = [] ∨ rest.head? = some '/') := by
  cases rest with
  | nil => simp
  | cons d r =>
    by_cases hd : d = '/'
    · simp [List.takeWhile_cons, hd]
    · simp [List.takeWhile_cons, hd]

theorem takeWhile_ne_dot_slash (p t : GoString) :
    p.takeWhile (fun b => b != '/') ≠ '.' :: '/' :: t := by
  intro h
  have hmem : '/' ∈ p.takeWhile (fun b => b != '/') := by rw [h]; simp
  have := List.mem_takeWhile_imp hmem
  simp at this

theorem cleanLoop_inv (rooted : Bool) :
    ∀ (fuel : Nat) (p out : GoString) (dotdot : Nat), CleanInv rooted out dotdot →
      ∃ dotdot2, CleanInv rooted (cleanLoop rooted fuel p out dotdot) dotdot2 := by
  intro fuel
  induction fuel with
  | zero =>
    intro p out dotdot hinv
    exact ⟨dotdot, by rw [cleanLoop]; exact hinv⟩
  | succ fuel ih =>
    intro p out dotdot hinv
    cases p with
    | nil => exact ⟨dotdot, by rw [cleanLoop_nil]; exact hinv⟩
    | cons c rest =>
      rw [cleanLoop]
      by_cases h1 : c = '/'
      · simp only [if_pos h1]
        exact ih rest out dotdot hinv
      · simp only [if_neg h1]
        by_cases h2 : c = '.' ∧ (rest = [] ∨ rest.head? = some '/')
        · simp only [if_pos h2]
          exact ih rest out dotdot hinv
        · simp only [if_neg h2]
          by_cases h3 : c = '.' ∧ rest.head? = some '.' ∧
              (rest.tail = [] ∨ rest.tail.head? = some '/')
          · simp only [if_pos h3]
            by_cases h4 : dotdot < out.length
            · simp only [if_pos h4]
              have hb := backtrack_spec out dotdot (out.length - 1) (by omega)
              exact ih _ _ _ (cleanInv_take rooted out dotdot _ hinv hb.1 (by omega) hb.2.2)
            · simp only [if_neg h4]
              cases rooted with
              | true => exact ih _ _ _ hinv
              | false =>
                have hadd : (if 0 < out.length then out ++ ['/'] else out) ++ ['.', '.'] =
                    addElem false out ['.', '.'] := by
                  by_cases h0 : 0 < out.length
                  · have : out.length ≠ 0 := by omega
                    simp [addElem, h0, this]
                  · have : out.length = 0 := by omega
                    simp [addElem, this]
                have hi := cleanInv_addElem false out ['.', '.'] dotdot hinv (by simp) (by simp)
                  (by simp)
                simp only [Bool.not_false, if_true]
                rw [hadd]
                refine ih _ _ _ ⟨by simp, fun _ => ⟨?_, (hi.2.1 rfl).2⟩, hi.2.2.1, hi.2.2.2⟩
                have : 2 ≤ (addElem false out ['.', '.']).length := by
                  unfold addElem
                  split <;> simp
                omega
          · simp only [if_neg h3]
            have htw : (c :: rest).takeWhile (fun b => b != '/') =
                c :: rest.takeWhile (fun b => b != '/') := by
              simp [List.takeWhile_cons, h1]
            have hi := cleanInv_addElem rooted out
              ((c :: rest).takeWhile (fun b => b != '/')) dotdot hinv
              (by rw [htw]; simpa using h1)
              (by
                rw [htw]
                intro h
                simp at h
                exact h2 ⟨h.1, (takeWhile_eq_nil_iff_lookahead rest).mp (by simpa using h.2)⟩)
              (fun t => takeWhile_ne_dot_slash _ t)
            exact ih _ _ _ hi

theorem addElem_length_ne_zero (rooted : Bool) (out name : GoString) (hne : name ≠ []) :
    (addElem rooted out name).length ≠ 0 := by
  unfold addElem
  have : name.length ≠ 0 := fun h => hne (List.length_eq_zero.mp h)
  simp only [List.length_append]
  omega

theorem addElem_eq_entry (rooted : Bool) (out name : GoString) (dotdot : Nat)
    (hinv : CleanInv rooted out dotdot) :
    addElem rooted out name = entry (if out.length = 0 then ['.'] else out) name := by
  obtain ⟨hr, hu, hodot, _⟩ := hinv
  cases out with
  | nil =>
    cases rooted with
    | true =>
      have := (hr rfl).2
      simp at this
    | false => simp [addElem, entry]
  | cons a t =>
    cases t with
    | nil =>
      cases rooted with
      | true =>
        have ha := (hr rfl).2
        simp at ha
        subst ha
        simp [addElem, entry]
      | false =>
        have ha : a ≠ '/' := by simpa using (hu rfl).2
        have hb : a ≠ '.' := fun h => hodot (by rw [h])
        simp [addElem, entry, ha, hb]
    | cons b t => cases rooted <;> simp [addElem, entry]

/-- Joining a directory with a single path element gives the entry of that
name in the cleaned directory. -/
theorem Join_single_element (dir name : GoString)
    (hne : name ≠ []) (hslash : '/' ∉ name) (hdot : name ≠ ['.']) (hdd : name ≠ ['.', '.']) :
    Join [dir, name] = entry (Clean dir) name := by
  cases dir with
  | nil =>
    cases name with
    | nil => exact absurd rfl hne
    | cons c rest =>
      have hc : c ≠ '/' := fun e => hslash (by simp [e])
      have hl := cleanLoop_name false rest.length (c :: rest) [] 0 hne hslash hdot hdd
      simp only [Join, joinSlash, Clean, List.length_cons, if_neg hc, ne_eq, not_true_eq_false,
        if_false, List.cons_ne_nil, not_false_eq_true, if_true, hl]
      simp [addElem, entry]
  | cons c rest =>
    have hnl : name.length ≠ 0 := fun h => hne (List.length_eq_zero.mp h)
    have hjoin : Join [c :: rest, name] = Clean (c :: (rest ++ '/' :: name)) := by
      simp [Join, joinSlash]
    rw [hjoin]
    by_cases hc : c = '/'
    · have hinv0 : CleanInv true ['/'] 1 := ⟨by simp, by simp, by simp, by simp⟩
      obtain ⟨dd, hinv⟩ := cleanLoop_inv true (c :: rest).length rest ['/'] 1 hinv0
      have happ := cleanLoop_append true name hne hslash hdot hdd (c :: rest).length rest ['/'] 1
        (c :: (rest ++ '/' :: name)).length (by simp) (by simp)
      simp only [Clean, if_pos hc, happ]
      rw [if_neg (addElem_length_ne_zero _ _ _ hne)]
      exact addElem_eq_entry true _ name dd hinv
    · have hinv0 : CleanInv false [] 0 := ⟨by simp, by simp, by simp, by simp⟩
      obtain ⟨dd, hinv⟩ := cleanLoop_inv false (c :: rest).length (c :: rest) [] 0 hinv0
      have happ := cleanLoop_append false name hne hslash hdot hdd (c :: rest).length
        (c :: rest) [] 0 (c :: (rest ++ '/' :: name)).length (by simp)
        (by simp; omega)
      rw [List.cons_append] at happ
      simp only [Clean, if_neg hc, happ]
      rw [if_neg (addElem_length_ne_zero _ _ _ hne)]
      exact addElem_eq_entry false _ name dd hinv

/-- The fuel of `cleanLoop` is adequate: one more round than the length of the
unread path changes nothing, so the loop always ends by exhausting the path. -/
theorem cleanLoop_fuel_succ (rooted : Bool) :
    ∀ (fuel : Nat) (p out : GoString) (dotdot : Nat), p.length ≤ fuel →
      cleanLoop rooted (fuel + 1) p out dotdot = cleanLoop rooted fuel p out dotdot := by
  intro fuel
  induction fuel with
  | zero =>
    intro p out dotdot hp
    have hp0 : p = [] := List.length_eq_zero.mp (Nat.le_zero.mp hp)
    subst hp0
    rw [cleanLoop_nil, cleanLoop_nil]
  | succ fuel ih =>
    intro p out dotdot hp
    cases p with
    | nil => rw [cleanLoop_nil, cleanLoop_nil]
    | cons c rest =>
      simp only [List.length_cons] at hp
      have hrest : rest.length ≤ fuel := by omega
      have htail : rest.tail.length ≤ fuel := by
        rw [List.length_tail]; omega
      rw [cleanLoop]
      conv_rhs => rw [cleanLoop]
      by_cases h1 : c = '/'
      · simp only [if_pos h1]
        exact ih _ _ _ hrest
      · have hdrop : ((c :: rest).dropWhile (fun b => b != '/')).length ≤ fuel := by
          have := dropWhile_length_le rest
          simp only [List.dropWhile_cons, bne_iff_ne, ne_eq, h1, not_false_eq_true,
            decide_True, if_true]
          omega
        simp only [ih _ _ _ hrest, ih _ _ _ htail, ih _ _ _ hdrop]

/-- With at least as much fuel as unread bytes, `cleanLoop` gives the result
it gives with exactly that much. -/
theorem cleanLoop_fuel (rooted : Bool) (p out : GoString) (dotdot : Nat) :
    ∀ extra, cleanLoop rooted (p.length + extra) p out dotdot =
      cleanLoop rooted p.length p out dotdot := by
  intro extra
  induction extra with
  | zero => rfl
  | succ extra ih =>
    rw [← Nat.add_assoc, cleanLoop_fuel_succ rooted _ p out dotdot (by omega), ih]

end JoinSingle

/-! ## Where the download is written -/

theorem extractFileName_name_ne_nil (fileURL name : GoString)
    (h : extractFileName fileURL = (name, none)) : name ≠ [] := by
  unfold extractFileName at h
  cases hp : url.Parse fileURL with
  | error e =>
    rw [hp] at h
    simp at h
  | ok u =>
    rw [hp] at h
    dsimp only at h
    by_cases hrf : u.Query.Get "rf".toList = []
    · rw [if_pos hrf] at h
      simp at h
    · rw [if_neg hrf] at h
      have := congrArg Prod.fst h
      dsimp only at this
      rw [← this]
      exact hrf

/-- C7, as amended: for every target directory and every WallpaperURL whose
`rf` value is non-empty, contains no `/` and is neither `.` nor `..`, a
successful `downloadWallpaper` returns the entry named by the `rf` value,
verbatim, of the cleaned target directory (`filepath.Join(dir, rf)`), creates
exactly that file, stores the response body in it and leaves every other file
as it was. -/
theorem downloadWallpaper_path (w : World) (bingURL dirPath : GoString) (s : State)
    (name : GoString)
    (hname : extractFileName bingURL = (name, none))
    (hslash : '/' ∉ name) (hdot : name ≠ ['.']) (hdd : name ≠ ['.', '.'])
    (hok : (downloadWallpaper w bingURL dirPath s).1.2 = none) :
    (downloadWallpaper w bingURL dirPath s).1.1 =
      filepath.entry (filepath.Clean dirPath) name ∧
    (downloadWallpaper w bingURL dirPath s).2.created =
      s.created ++ [filepath.entry (filepath.Clean dirPath) name] ∧
    (∃ resp, w.httpGet s.requests.length bingURL = .ok resp ∧
      (downloadWallpaper w bingURL dirPath s).2.files
        (filepath.entry (filepath.Clean dirPath) name) = some resp.Body) ∧
    (∀ q, q ≠ filepath.entry (filepath.Clean dirPath) name →
      (downloadWallpaper w bingURL dirPath s).2.files q = s.files q) := by
  have hne := extractFileName_name_ne_nil bingURL name hname
  have hjoin := Join_single_element dirPath name hne hslash hdot hdd
  cases hget : w.httpGet s.requests.length bingURL with
  | error e =>
    simp [downloadWallpaper, hget] at hok
  | ok resp =>
    cases hcreate : w.createError (filepath.Join [dirPath, name]) with
    | some e =>
      simp [downloadWallpaper, hget, hname, hcreate] at hok
    | none =>
      cases hcopy : w.copyError (filepath.Join [dirPath, name]) resp.Body with
      | some ne =>
        simp [downloadWallpaper, hget, hname, hcreate, hcopy] at hok
      | none =>
        rw [downloadWallpaper_success w bingURL dirPath s resp.StatusCode resp.Body name
          hget hname hcreate hcopy, hjoin]
        refine ⟨rfl, rfl, ⟨resp, rfl, by simp [writeFile]⟩, ?_⟩
        intro q hq
        simp [writeFile, hq]

/-- A witness of C7 as amended: the scenario, with a trailing separator on the directory. -/
theorem downloadWallpaper_path_witness :
    (downloadWallpaper (exampleWorld 200) exampleImageURL "/home/u/Pictures/".toList
        (initialState (exampleWorld 200))).1.1 = "/home/u/Pictures/test123.jpg".toList ∧
    (downloadWallpaper (exampleWorld 200) exampleImageURL "/home/u/Pictures/".toList
        (initialState (exampleWorld 200))).2.created = ["/home/u/Pictures/test123.jpg".toList] ∧
    (∃ resp, (exampleWorld 200).httpGet 0 exampleImageURL = .ok resp ∧
      (downloadWallpaper (exampleWorld 200) exampleImageURL "/home/u/Pictures/".toList
        (initialState (exampleWorld 200))).2.files "/home/u/Pictures/test123.jpg".toList =
        some resp.Body) ∧
    (∀ q, q ≠ "/home/u/Pictures/test123.jpg".toList →
      (downloadWallpaper (exampleWorld 200) exampleImageURL "/home/u/Pictures/".toList
        (initialState (exampleWorld 200))).2.files q = (exampleWorld 200).files q) :=
  downloadWallpaper_path (exampleWorld 200) exampleImageURL "/home/u/Pictures/".toList
    (initialState (exampleWorld 200)) "test123.jpg".toList rfl (by decide) (by decide)
    (by decide) rfl

/-- C7 as stated fails: the `rf` value `../evil.jpg` is non-empty, the download
into `/home/u/Pictures` succeeds, and the file is written to `/home/u/evil.jpg`,
which is outside the target directory, is not `<directory>/<rf value>` and does
not have the `rf` value as its base name; a whole run of `main` on the
validated directory `/home/u/Pictures` creates that file. -/
theorem downloadWallpaper_escapes_directory :
    extractFileName evilURL = ("../evil.jpg".toList, none) ∧
    (downloadWallpaper evilWorld evilURL "/home/u/Pictures".toList
        (initialState evilWorld)).1 = ("/home/u/evil.jpg".toList, none) ∧
    (downloadWallpaper evilWorld evilURL "/home/u/Pictures".toList
        (initialState evilWorld)).2.created = ["/home/u/evil.jpg".toList] ∧
    (downloadWallpaper evilWorld evilURL "/home/u/Pictures".toList
        (initialState evilWorld)).2.files "/home/u/evil.jpg".toList = some "IMGDATA".toList ∧
    strings.HasPrefix "/home/u/evil.jpg".toList "/home/u/Pictures/".toList = false ∧
    "/home/u/evil.jpg".toList ≠ "/home/u/Pictures".toList ++ "/".toList ++ "../evil.jpg".toList ∧
    (main evilWorld).1.created = ["/home/u/evil.jpg".toList] ∧ (main evilWorld).2 = 0 := by
  refine ⟨by rfl, by rfl, by rfl, by rfl, by rfl, by decide, by rfl, by rfl⟩

/-! ## The `rf` parameter -/

theorem cut_not_mem (s : GoString) (sep : Char) (h : sep ∉ s) :
    strings.Cut s sep = (s, [], false) := by
  induction s with
  | nil => rfl
  | cons c s ih =>
    simp only [List.mem_cons, not_or] at h
    have hc : c ≠ sep := fun e => h.1 e.symm
    rw [strings.Cut, if_neg hc, ih h.2]
    simp

theorem cut_append (a b : GoString) (sep : Char) (h : sep ∉ a) :
    strings.Cut (a ++ sep :: b) sep = (a, b, true) := by
  induction a with
  | nil => simp [strings.Cut]
  | cons c a ih =>
    simp only [List.mem_cons, not_or] at h
    have hc : c ≠ sep := fun e => h.1 e.symm
    rw [List.cons_append, strings.Cut, if_neg hc, ih h.2]
    simp

theorem cut_after_of_not_found (s : GoString) (sep : Char)
    (h : (strings.Cut s sep).2.2 = false) : (strings.Cut s sep).2.1 = [] := by
  cases s with
  | nil => rfl
  | cons c s =>
    rw [strings.Cut] at h ⊢
    by_cases hc : c = sep
    · rw [if_pos hc] at h
      simp at h
    · rw [if_neg hc] at h ⊢
      dsimp only at h ⊢
      by_cases hf : (strings.Cut s sep).2.2 = true
      · rw [if_pos hf] at h
        simp at h
      · rw [if_neg hf]

theorem cut_after_append (a b : GoString) (sep : Char) (h : sep ∉ a) :
    (strings.Cut (a ++ b) sep).2.1 = (strings.Cut b sep).2.1 := by
  induction a with
  | nil => rfl
  | cons c a ih =>
    simp only [List.mem_cons, not_or] at h
    have hc : c ≠ sep := fun e => h.1 e.symm
    rw [List.cons_append, strings.Cut, if_neg hc]
    dsimp only
    by_cases hf : (strings.Cut (a ++ b) sep).2.2 = true
    · rw [if_pos hf]
      exact ih h.2
    · rw [if_neg hf, ← ih h.2]
      exact (cut_after_of_not_found _ _ (by simpa using hf)).symm


theorem cut_after_length (q : GoString) (sep : Char) :
    (strings.Cut q sep).2.1.length ≤ q.length - 1 := by
  induction q with
  | nil => simp [strings.Cut]
  | cons c s ih =>
    rw [strings.Cut]
    by_cases hc : c = sep
    · rw [if_pos hc]
      simp
    · rw [if_neg hc]
      dsimp only
      by_cases hf : (strings.Cut s sep).2.2 = true
      · rw [if_pos hf]
        simp only [List.length_cons, Nat.add_sub_cancel]
        omega
      · rw [if_neg hf]
        simp

/-- The fuel of `parseQueryLoop` is adequate: one more round than the length
of the unread query changes nothing, so the loop always ends by exhausting the
query. -/
theorem parseQueryLoop_fuel_succ :
    ∀ (fuel : Nat) (m : url.Values) (query : GoString) (err : Option url.ParseErr),
      query.length ≤ fuel →
      url.parseQueryLoop (fuel + 1) m query err = url.parseQueryLoop fuel m query err := by
  intro fuel
  induction fuel with
  | zero =>
    intro m query err hq
    have hq0 : query = [] := List.length_eq_zero.mp (Nat.le_zero.mp hq)
    subst hq0
    simp [url.parseQueryLoop]
  | succ fuel ih =>
    intro m query err hq
    rw [url.parseQueryLoop]
    conv_rhs => rw [url.parseQueryLoop]
    by_cases hnil : query = []
    · simp only [if_pos hnil]
    · have hlen : (strings.Cut query '&').2.1.length ≤ fuel := by
        have := cut_after_length query '&'
        have hpos : 0 < query.length := List.length_pos.mpr hnil
        omega
      simp only [if_neg hnil, ih _ _ _ hlen]

theorem unescapeCheck_literal (s : GoString) (n : Nat) (hasPlus : Bool)
    (h : ∀ c ∈ s, c ≠ '%' ∧ c ≠ '+') :
    url.unescapeCheck .encodeQueryComponent s n hasPlus = .ok (n, hasPlus) := by
  induction s with
  | nil => rfl
  | cons c s ih =>
    have hc := h c (by simp)
    unfold url.unescapeCheck
    simp only [if_neg hc.1, if_neg hc.2, reduceCtorEq, decide_False, Bool.or_self,
      Bool.false_and, Bool.false_eq_true, if_false]
    exact ih (fun d hd => h d (by simp [hd]))

theorem QueryUnescape_literal (s : GoString) (h : ∀ c ∈ s, literalByte c) :
    url.QueryUnescape s = .ok s := by
  unfold url.QueryUnescape url.unescape
  rw [unescapeCheck_literal s 0 false (fun c hc => ⟨(h c hc).2.2.2.1, (h c hc).2.2.2.2⟩)]
  simp

theorem contains_false (s : GoString) (c : Char) (h : c ∉ s) : strings.Contains s c = false := by
  unfold strings.Contains
  rw [List.any_eq_false]
  intro d hd
  simp only [beq_iff_eq]
  intro e
  exact h (e ▸ hd)

theorem index_append (m : url.Values) (k v key : GoString) :
    url.Values.index (url.Values.append m k v) key =
      if k = key then url.Values.index m key ++ [v] else url.Values.index m key := by
  induction m with
  | nil =>
    by_cases hk : k = key <;> simp [url.Values.append, url.Values.index, hk]
  | cons e rest ih =>
    obtain ⟨k0, vs⟩ := e
    by_cases h0 : k0 = k
    · subst h0
      by_cases hk : k0 = key <;> simp [url.Values.append, url.Values.index, hk]
    · by_cases hk : k = key
      · subst hk
        simp [url.Values.append, url.Values.index, h0, ih]
      · have hk2 : ¬ key = k := fun e => hk e.symm
        by_cases hk0 : k0 = key <;>
          simp [url.Values.append, url.Values.index, h0, hk, hk2, hk0, ih]

theorem index_foldl (pairs : List (GoString × GoString)) (m : url.Values) (key : GoString) :
    url.Values.index (pairs.foldl (fun m kv => url.Values.append m kv.1 kv.2) m) key =
      url.Values.index m key ++ (pairs.filter (fun kv => kv.1 = key)).map (fun kv => kv.2) := by
  induction pairs generalizing m with
  | nil => simp
  | cons kv rest ih =>
    rw [List.foldl_cons, ih, index_append]
    by_cases hk : kv.1 = key <;> simp [hk]

theorem encodePairs_cons (kv : GoString × GoString) (rest : List (GoString × GoString)) :
    ∃ more, encodePairs (kv :: rest) = kv.1 ++ '=' :: kv.2 ++ more ∧
      (more = [] ∨ more = '&' :: encodePairs rest) ∧ (rest = [] → more = []) ∧
      (more = [] → encodePairs rest = []) := by
  cases rest with
  | nil => exact ⟨[], by simp [encodePairs], Or.inl rfl, fun _ => rfl, fun _ => rfl⟩
  | cons kv2 rest2 =>
    exact ⟨'&' :: encodePairs (kv2 :: rest2), by simp [encodePairs], Or.inr rfl,
      fun h => by simp at h, fun h => by simp at h⟩

theorem parseQueryLoop_literal (pairs : List (GoString × GoString)) :
    ∀ (fuel : Nat) (m : url.Values), (∀ kv ∈ pairs, literalPair kv) →
      (encodePairs pairs).length ≤ fuel →
      url.parseQueryLoop fuel m (encodePairs pairs) none =
        (pairs.foldl (fun m kv => url.Values.append m kv.1 kv.2) m, none) := by
  induction pairs with
  | nil =>
    intro fuel m _ _
    cases fuel <;> simp [url.parseQueryLoop, encodePairs]
  | cons kv rest ih =>
    intro fuel m hlit hfuel
    obtain ⟨hkne, hk, hv⟩ := hlit kv (by simp)
    obtain ⟨more, henc, hmore, _, hnil⟩ := encodePairs_cons kv rest
    have hamp : '&' ∉ kv.1 ++ '=' :: kv.2 := by
      intro hmem
      simp only [List.mem_append, List.mem_cons] at hmem
      rcases hmem with h | h | h
      · exact (hk _ h).1 rfl
      · exact absurd h (by decide)
      · exact (hv _ h).1 rfl
    have hsemi : ';' ∉ kv.1 ++ '=' :: kv.2 := by
      intro hmem
      simp only [List.mem_append, List.mem_cons] at hmem
      rcases hmem with h | h | h
      · exact (hk _ h).2.1 rfl
      · exact absurd h (by decide)
      · exact (hv _ h).2.1 rfl
    have heq : '=' ∉ kv.1 := fun h => (hk _ h).2.2.1 rfl
    have hkv : kv.1 ++ '=' :: kv.2 ≠ [] := by simp
    have hcutkv := cut_append kv.1 kv.2 '=' heq
    rw [henc] at hfuel ⊢
    have hlen : 0 < fuel := by
      simp only [List.length_append, List.length_cons] at hfuel
      omega
    obtain ⟨fuel2, rfl⟩ : ∃ f, fuel = f + 1 := ⟨fuel - 1, by omega⟩
    have hrest : ∀ kv2 ∈ rest, literalPair kv2 := fun kv2 h => hlit kv2 (by simp [h])
    rcases hmore with hm | hm
    · subst hm
      have hcut := cut_not_mem (kv.1 ++ '=' :: kv.2) '&' hamp
      rw [url.parseQueryLoop]
      simp only [List.append_nil, hcut, if_neg hkv, contains_false _ _ hsemi,
        Bool.false_eq_true, if_false, hcutkv, QueryUnescape_literal _ hk,
        QueryUnescape_literal _ hv]
      have h0 := hnil rfl
      have := ih fuel2 (url.Values.append m kv.1 kv.2) hrest (by rw [h0]; simp)
      rw [h0] at this
      rw [List.foldl_cons]
      exact this
    · subst hm
      have hcut := cut_append (kv.1 ++ '=' :: kv.2) (encodePairs rest) '&' hamp
      have hne2 : kv.1 ++ '=' :: kv.2 ++ '&' :: encodePairs rest ≠ [] := by simp
      rw [url.parseQueryLoop]
      simp only [if_neg hne2, hcut, if_neg hkv, contains_false _ _ hsemi,
        Bool.false_eq_true, if_false, hcutkv, QueryUnescape_literal _ hk,
        QueryUnescape_literal _ hv]
      rw [List.foldl_cons]
      apply ih fuel2 _ hrest
      simp only [List.length_append, List.length_cons] at hfuel
      omega

theorem cut_after_cons (d : Char) (s : GoString) (sep : Char) (hd : d ≠ sep) :
    (strings.Cut (d :: s) sep).2.1 = (strings.Cut s sep).2.1 :=
  cut_after_append [d] s sep (by simpa using hd.symm)

theorem cut_after_forceQuery (s : GoString)
    (hsuf : strings.HasSuffix s ['?'] = true) (hcount : strings.Count s '?' = 1) :
    (strings.Cut s '?').2.1 = [] := by
  induction s with
  | nil => rfl
  | cons d s ih =>
    by_cases hd : d = '?'
    · subst hd
      have h0 : strings.Count s '?' = 0 := by
        simpa [strings.Count, List.filter_cons] using hcount
      have hs : s = [] := by
        cases s with
        | nil => rfl
        | cons e t =>
          exfalso
          simp only [strings.Count, List.length_eq_zero, List.filter_eq_nil_iff] at h0
          simp only [strings.HasSuffix, List.reverse_cons, List.reverse_nil, List.nil_append] at hsuf
          cases hr : (t.reverse ++ [e]) with
          | nil => simp at hr
          | cons x xs =>
            rw [hr] at hsuf
            simp only [List.cons_append, List.isPrefixOf, Bool.and_true, beq_iff_eq] at hsuf
            have hx : x ∈ e :: t := by
              have : x ∈ t.reverse ++ [e] := by rw [hr]; simp
              simpa [or_comm] using this
            have := h0 x hx
            simp [← hsuf] at this
      subst hs
      rfl
    · rw [cut_after_cons d s '?' hd]
      have hc : strings.Count s '?' = 1 := by
        simpa [strings.Count, List.filter_cons, hd] using hcount
      have hne : s ≠ [] := by
        intro h
        subst h
        simp [strings.Count] at hc
      apply ih _ hc
      simp only [strings.HasSuffix, List.reverse_cons] at hsuf ⊢
      cases hr : s.reverse with
      | nil => exact absurd (List.reverse_eq_nil_iff.mp hr) hne
      | cons x xs =>
        rw [hr] at hsuf
        simpa [List.isPrefixOf] using hsuf

theorem getSchemeLoop_rest (rawURL : GoString) :
    ∀ (rem pre scheme rest : GoString), '?' ∉ pre →
      url.getSchemeLoop rawURL pre rem = .ok (scheme, rest) →
      rest = rawURL ∨
        (strings.Cut rest '?').2.1 = (strings.Cut (pre.reverse ++ rem) '?').2.1 := by
  intro rem
  induction rem with
  | nil =>
    intro pre scheme rest _ h
    simp only [url.getSchemeLoop, Except.ok.injEq, Prod.mk.injEq] at h
    exact Or.inl h.2.symm
  | cons c rem ih =>
    intro pre scheme rest hpre h
    have hstep : ∀ (hc : c ≠ '?'),
        url.getSchemeLoop rawURL (c :: pre) rem = .ok (scheme, rest) →
        rest = rawURL ∨
          (strings.Cut rest '?').2.1 = (strings.Cut (pre.reverse ++ c :: rem) '?').2.1 := by
      intro hc h2
      have := ih (c :: pre) scheme rest (by simp [hpre, hc.symm]) h2
      simpa using this
    rw [url.getSchemeLoop] at h
    by_cases hq : c = '?'
    · subst hq
      rw [if_neg (by decide), if_neg (by decide), if_neg (by decide)] at h
      simp only [Except.ok.injEq, Prod.mk.injEq] at h
      exact Or.inl h.2.symm
    · by_cases h1 : (('a' ≤ c && c ≤ 'z') || ('A' ≤ c && c ≤ 'Z')) = true
      · rw [if_pos h1] at h
        exact hstep hq h
      · rw [if_neg h1] at h
        by_cases h2 : (('0' ≤ c && c ≤ '9') || c = '+' || c = '-' || c = '.') = true
        · rw [if_pos h2] at h
          by_cases hp : pre = []
          · rw [if_pos hp] at h
            simp only [Except.ok.injEq, Prod.mk.injEq] at h
            exact Or.inl h.2.symm
          · rw [if_neg hp] at h
            exact hstep hq h
        · rw [if_neg h2] at h
          by_cases h3 : c = ':'
          · rw [if_pos h3] at h
            by_cases hp : pre = []
            · rw [if_pos hp] at h
              cases h
            · rw [if_neg hp] at h
              simp only [Except.ok.injEq, Prod.mk.injEq] at h
              right
              rw [← h.2, h3]
              have := cut_after_append (pre.reverse ++ [':']) rem '?'
                (by simp [hpre])
              simpa using this.symm
          · rw [if_neg h3] at h
            simp only [Except.ok.injEq, Prod.mk.injEq] at h
            exact Or.inl h.2.symm

theorem parse_rawQuery (t : GoString) (u : url.URL) (h : url.parse t false = .ok u) :
    u.RawQuery = (strings.Cut t '?').2.1 := by
  unfold url.parse at h
  by_cases hctl : url.stringContainsCTLByte t = true
  · rw [if_pos hctl] at h
    cases h
  rw [if_neg hctl, if_neg (by simp)] at h
  by_cases hstar : t = "*".toList
  · rw [if_pos hstar] at h
    simp only [Except.ok.injEq] at h
    rw [← h, hstar]
    rfl
  rw [if_neg hstar] at h
  cases hg : url.getScheme t with
  | error e =>
    rw [hg] at h
    cases h
  | ok r =>
    obtain ⟨scheme0, rest0⟩ := r
    rw [hg] at h
    have hcut : (strings.Cut rest0 '?').2.1 = (strings.Cut t '?').2.1 := by
      rcases getSchemeLoop_rest t t [] scheme0 rest0 (by simp) hg with h1 | h1
      · rw [h1]
      · simpa using h1
    have hraw : (if (strings.HasSuffix rest0 "?".toList && strings.Count rest0 '?' == 1) = true
        then [] else (strings.Cut rest0 '?').2.1) = (strings.Cut t '?').2.1 := by
      by_cases hf : (strings.HasSuffix rest0 "?".toList && strings.Count rest0 '?' == 1) = true
      · rw [if_pos hf, ← hcut]
        simp only [Bool.and_eq_true, beq_iff_eq] at hf
        exact (cut_after_forceQuery rest0 hf.1 hf.2).symm
      · rw [if_neg hf, hcut]
    rw [← hraw]
    dsimp only at h
    repeat' split at h
    all_goals first
      | (cases h; done)
      | (simp only [Except.ok.injEq] at h
         rw [← h]
         first
           | (have hf : (strings.HasSuffix rest0 "?".toList &&
                strings.Count rest0 '?' == 1) = true := by assumption
              rw [if_pos hf])
           | (have hf : ¬ (strings.HasSuffix rest0 "?".toList &&
                strings.Count rest0 '?' == 1) = true := by assumption
              rw [if_neg hf]))

theorem Parse_rawQuery (s : GoString) (u : url.URL) (h : url.Parse s = .ok u) :
    u.RawQuery = (strings.Cut (strings.Cut s '#').1 '?').2.1 := by
  unfold url.Parse at h
  dsimp only at h
  cases hp : url.parse (strings.Cut s '#').1 false with
  | error e =>
    rw [hp] at h
    cases h
  | ok u0 =>
    rw [hp] at h
    dsimp only at h
    have h0 := parse_rawQuery _ u0 hp
    by_cases hfrag : (strings.Cut s '#').2.1 = []
    · rw [if_pos hfrag] at h
      simp only [Except.ok.injEq] at h
      rw [← h, h0]
    · rw [if_neg hfrag] at h
      cases hu : url.unescape (strings.Cut s '#').2.1 url.encoding.encodeFragment with
      | error e =>
        rw [hu] at h
        cases h
      | ok frag =>
        rw [hu] at h
        simp only [Except.ok.injEq] at h
        rw [← h]
        exact h0

theorem query_index_literal (u : url.URL) (pairs : List (GoString × GoString))
    (hq : u.RawQuery = encodePairs pairs) (hlit : ∀ kv ∈ pairs, literalPair kv)
    (key : GoString) :
    u.Query.index key = (pairs.filter (fun kv => kv.1 = key)).map (fun kv => kv.2) := by
  unfold url.URL.Query url.ParseQuery
  rw [hq, parseQueryLoop_literal pairs _ [] hlit (le_refl _)]
  dsimp only
  rw [index_foldl]
  rfl

/-- C1, as amended: for every URL string that `url.Parse` accepts and in whose
query the first `rf` parameter is non-empty, `extractFileName` returns exactly
the value of that parameter with a nil error; later `rf` parameters are not
looked at.  First in terms of the decoded query `Query()["rf"]`; then in terms
of the text of the URL: when the text between the first `?` and the first `#`
is a sequence `k1=v1&k2=v2&...` of literal pairs and `rf=v` is the first pair
named `rf`, with `v` non-empty, the name returned is `v`. -/
theorem extractFileName_first_rf (fileURL : GoString) (u : url.URL)
    (hparse : url.Parse fileURL = .ok u) :
    (∀ first later, u.Query.index "rf".toList = first :: later → first ≠ [] →
      extractFileName fileURL = (first, none)) ∧
    (∀ before after v,
      (strings.Cut (strings.Cut fileURL '#').1 '?').2.1 =
        encodePairs (before ++ ("rf".toList, v) :: after) →
      (∀ kv ∈ before ++ ("rf".toList, v) :: after, literalPair kv) →
      (∀ kv ∈ before, kv.1 ≠ "rf".toList) → v ≠ [] →
      extractFileName fileURL = (v, none)) := by
  have part1 : ∀ first later, u.Query.index "rf".toList = first :: later → first ≠ [] →
      extractFileName fileURL = (first, none) := by
    intro first later hrf hne
    have hget : u.Query.Get "rf".toList = first := by
      unfold url.Values.Get
      rw [hrf]
    rw [extractFileName_of_parse fileURL u hparse (by rw [hget]; exact hne), hget]
  refine ⟨part1, ?_⟩
  intro before after v htext hlit hbefore hne
  have hq : u.RawQuery = encodePairs (before ++ ("rf".toList, v) :: after) := by
    rw [Parse_rawQuery fileURL u hparse, htext]
  have hidx := query_index_literal u _ hq hlit "rf".toList
  have hfil : (before.filter (fun kv => kv.1 = "rf".toList)) = [] := by
    rw [List.filter_eq_nil_iff]
    intro kv hkv
    simpa using hbefore kv hkv
  rw [List.filter_append, hfil, List.nil_append, List.filter_cons] at hidx
  simp only [decide_True, if_true, List.map_cons] at hidx
  exact part1 v _ hidx hne

/-- A witness of C1 as amended: the URL of the specification, and the same URL
with a second `rf` pair and a fragment. -/
theorem extractFileName_first_rf_witness :
    extractFileName "https://www.bing.com/th?id=XYZ&rf=MyPic.jpg".toList =
      ("MyPic.jpg".toList, none) ∧
    extractFileName "https://www.bing.com/th?id=XYZ&rf=MyPic.jpg&rf=b.jpg#top".toList =
      ("MyPic.jpg".toList, none) :=
  ⟨(extractFileName_first_rf "https://www.bing.com/th?id=XYZ&rf=MyPic.jpg".toList
      { Scheme := "https".toList, Host := "www.bing.com".toList, Path := "/th".toList,
        RawQuery := "id=XYZ&rf=MyPic.jpg".toList } rfl).1
      "MyPic.jpg".toList [] rfl (by decide),
   (extractFileName_first_rf "https://www.bing.com/th?id=XYZ&rf=MyPic.jpg&rf=b.jpg#top".toList
      { Scheme := "https".toList, Host := "www.bing.com".toList, Path := "/th".toList,
        RawQuery := "id=XYZ&rf=MyPic.jpg&rf=b.jpg".toList, Fragment := "top".toList } rfl).2
      [("id".toList, "XYZ".toList)] [("rf".toList, "b.jpg".toList)] "MyPic.jpg".toList rfl
      (by decide) (by decide) (by decide)⟩

/-- C1 as stated fails: the query of `https://www.bing.com/th?rf=&rf=MyPic.jpg`
contains the non-empty `rf` parameter `MyPic.jpg`, and `extractFileName` returns
the error "parameter 'rf' not found in the URL"; the query of
`https://www.bing.com/th?rf=a.jpg&rf=MyPic.jpg` contains it too, and the value
returned is `a.jpg`. -/
theorem extractFileName_later_rf_ignored :
    (∃ u, url.Parse "https://www.bing.com/th?rf=&rf=MyPic.jpg".toList = .ok u ∧
      "MyPic.jpg".toList ∈ u.Query.index "rf".toList) ∧
    extractFileName "https://www.bing.com/th?rf=&rf=MyPic.jpg".toList =
      ([], some rfNotFound) ∧
    (∃ u, url.Parse "https://www.bing.com/th?rf=a.jpg&rf=MyPic.jpg".toList = .ok u ∧
      "MyPic.jpg".toList ∈ u.Query.index "rf".toList) ∧
    extractFileName "https://www.bing.com/th?rf=a.jpg&rf=MyPic.jpg".toList =
      ("a.jpg".toList, none) := by
  refine ⟨⟨_, rfl, by decide⟩, by rfl, ⟨_, rfl, by decide⟩, by rfl⟩

end BingWallpaper
